import Mathlib

/-!
# femto iterators (src/iterators.h): a shallow embedding

The header defines two iterators over an N-dimensional strided array.

* iter, built by init_iter and advanced by NEXT, walks every coordinate of
  the array except along one axis.
* iter2, built by init_iter2 and advanced by NEXT2, walks a source array and
  keeps a pointer into a target array of one dimension less.

Modelling choices.

* npy_intp, Py_ssize_t and int are mathematical integers: signed overflow is
  undefined in C and numpy never builds an array whose element count
  overflows.
* A char pointer is the integer byte address it holds.
* A C array reached through a pointer is a total function from offsets to
  integers: cell k is what a read of p[k] returns. The cells an object owns
  are the offsets in [0, nd); a read outside them returns whatever the
  neighbouring memory holds, so every statement quantified over the function
  holds whatever that is. init_iter2_checked is init_iter2 with every read of
  the three input arrays bounds-checked.
* The C functions fill a struct through a pointer, so the embedding takes the
  struct as it was before the call and returns it as it is after.
-/

namespace Femto

/-- Modelled from the spec: the ArrayView of section 3 (numpy PyArrayObject,
whose declaration is not part of the sources): rank nd, nd lengths, nd byte
strides and the base address of the data. -/
structure PyArrayObject where
  nd : Int
  dimensions : Int → Int
  strides : Int → Int
  data : Int

/-- Modelled from the spec: PyArray_NDIM, the rank of the view. -/
def PyArray_NDIM (a : PyArrayObject) : Int := a.nd

/-- Modelled from the spec: PyArray_SHAPE, the lengths of the view. -/
def PyArray_SHAPE (a : PyArrayObject) : Int → Int := a.dimensions

/-- Modelled from the spec: PyArray_STRIDES, the byte strides of the view. -/
def PyArray_STRIDES (a : PyArrayObject) : Int → Int := a.strides

/-- Modelled from the spec: PyArray_BYTES, the base address of the view. -/
def PyArray_BYTES (a : PyArrayObject) : Int := a.data

/-- A view whose cells are given by lists (cells outside the lists read 0). -/
def mkArray (shape strides : List Int) (data : Int) : PyArrayObject :=
  { nd := shape.length
    dimensions := fun k => if 0 ≤ k then shape.getD k.toNat 0 else 0
    strides := fun k => if 0 ≤ k then strides.getD k.toNat 0 else 0
    data := data }

/-! ## struct _iter, init_iter, NEXT -/

/-- The struct _iter of iterators.h, lines 25-37. -/
structure iter where
  ndim_m2 : Int
  axis : Int
  length : Int
  astride : Int
  i : Int
  its : Int
  nits : Int
  indices : Int → Int
  astrides : Int → Int
  shape : Int → Int
  pa : Int

/-- An iter with every field zero, standing for the struct before init_iter. -/
def iter.zero : iter :=
  { ndim_m2 := 0, axis := 0, length := 0, astride := 0, i := 0, its := 0, nits := 0
    indices := fun _ => 0, astrides := fun _ => 0, shape := fun _ => 0, pa := 0 }

/-- One pass through the body of the for loop of init_iter (lines 55-65) with
the loop variable at i; the local j travels with the struct. -/
def init_iter_body (shape strides : Int → Int) (axis : Int) (i : Int)
    (s : iter × Int) : iter × Int :=
  if i = axis then
    ({ s.1 with astride := strides i, length := shape i }, s.2)
  else
    ({ s.1 with
        indices := Function.update s.1.indices s.2 0
        astrides := Function.update s.1.astrides s.2 (strides i)
        shape := Function.update s.1.shape s.2 (shape i)
        nits := s.1.nits * shape i },
      s.2 + 1)

/-- The struct and j after the first n passes (i = 0, ..., n - 1) of the for
loop of init_iter (line 54). -/
def init_iter_steps (shape strides : Int → Int) (axis : Int) (s : iter × Int) :
    Nat → iter × Int
  | 0 => s
  | n + 1 =>
    init_iter_body shape strides axis (n : Int) (init_iter_steps shape strides axis s n)

/-- The function init_iter of iterators.h, lines 40-67. The loop runs for
i = 0, ..., ndim - 1, that is ndim passes (none when ndim <= 0). -/
def init_iter (it : iter) (a : PyArrayObject) (axis : Int) : iter :=
  let ndim := PyArray_NDIM a
  let shape := PyArray_SHAPE a
  let strides := PyArray_STRIDES a
  let it0 : iter :=
    { it with axis := axis, its := 0, nits := 1, ndim_m2 := ndim - 2, pa := PyArray_BYTES a }
  (init_iter_steps shape strides axis (it0, 0) ndim.toNat).1

/-- The for loop of NEXT (lines 70-78) from the test of its condition on, with
a bound on the number of passes still allowed. A pass either breaks or
lowers it.i by one, so it.i + 1 passes always suffice (NEXT_loop_fuel). -/
def NEXT_loop : Nat → iter → iter
  | 0, it => it
  | fuel + 1, it =>
    if it.i > -1 then
      if it.indices it.i < it.shape it.i - 1 then
        { it with
            pa := it.pa + it.astrides it.i
            indices := Function.update it.indices it.i (it.indices it.i + 1) }
      else
        NEXT_loop fuel
          { it with
              pa := it.pa - it.indices it.i * it.astrides it.i
              indices := Function.update it.indices it.i 0
              i := it.i - 1 }
    else it

/-- The statement NEXT of iterators.h, lines 69-79. -/
def NEXT (it : iter) : iter :=
  let it1 := NEXT_loop (it.ndim_m2 + 1).toNat { it with i := it.ndim_m2 }
  { it1 with its := it1.its + 1 }

/-! ## struct _iter2, init_iter2, NEXT2 -/

/-- The struct _iter2 of iterators.h, lines 83-99. -/
structure iter2 where
  ndim : Int
  axis : Int
  fast_axis : Int
  length : Int
  astride : Int
  ystride : Int
  i : Int
  its : Int
  nits : Int
  indices : Int → Int
  astrides : Int → Int
  ystrides : Int → Int
  shape : Int → Int
  pa : Int
  py : Int

/-- An iter2 with every field zero, standing for the struct before init_iter2. -/
def iter2.zero : iter2 :=
  { ndim := 0, axis := 0, fast_axis := 0, length := 0, astride := 0, ystride := 0
    i := 0, its := 0, nits := 0
    indices := fun _ => 0, astrides := fun _ => 0, ystrides := fun _ => 0
    shape := fun _ => 0, pa := 0, py := 0 }

/-- One pass through the body of the for loop of init_iter2 (lines 126-136)
with the loop variable at i; the local j travels with the struct. -/
def init_iter2_body (shape astrides ystrides : Int → Int) (axis fast_axis : Int) (i : Int)
    (s : iter2 × Int) : iter2 × Int :=
  let it1 : iter2 :=
    { s.1 with
        indices := Function.update s.1.indices i 0
        astrides := Function.update s.1.astrides i (astrides i) }
  let s2 : iter2 × Int :=
    if i = axis then
      ({ it1 with ystrides := Function.update it1.ystrides i 0 }, s.2)
    else
      ({ it1 with ystrides := Function.update it1.ystrides i (ystrides s.2) }, s.2 + 1)
  let it3 : iter2 := { s2.1 with shape := Function.update s2.1.shape i (shape i) }
  if i ≠ fast_axis then
    ({ it3 with nits := it3.nits * shape i }, s2.2)
  else
    (it3, s2.2)

/-- The struct and j after the first n passes (i = 0, ..., n - 1) of the for
loop of init_iter2 (line 125). -/
def init_iter2_steps (shape astrides ystrides : Int → Int) (axis fast_axis : Int)
    (s : iter2 × Int) : Nat → iter2 × Int
  | 0 => s
  | n + 1 =>
    init_iter2_body shape astrides ystrides axis fast_axis (n : Int)
      (init_iter2_steps shape astrides ystrides axis fast_axis s n)

/-- The function init_iter2 of iterators.h, lines 102-138. -/
def init_iter2 (it : iter2) (a y : PyArrayObject) (axis fast_axis : Int) : iter2 :=
  let ndim := PyArray_NDIM a
  let shape := PyArray_SHAPE a
  let astrides := PyArray_STRIDES a
  let ystrides := PyArray_STRIDES y
  let it0 : iter2 :=
    { it with
        axis := axis, fast_axis := fast_axis, its := 0, nits := 1, ndim := ndim
        pa := PyArray_BYTES a, py := PyArray_BYTES y
        astride := astrides fast_axis
        length := shape fast_axis
        ystride := if fast_axis < axis then ystrides fast_axis else ystrides (fast_axis - 1) }
  (init_iter2_steps shape astrides ystrides axis fast_axis (it0, 0) ndim.toNat).1

/-- A bounds-checked read of cell k of an array of n cells. -/
def rd (n : Int) (cells : Int → Int) (k : Int) : Option Int :=
  if 0 ≤ k ∧ k < n then some (cells k) else none

/-- The body of the for loop of init_iter2 (lines 126-136) with every read of
shape, astrides (nd cells each) and ystrides (ynd cells) checked. -/
def init_iter2_body_checked (nd ynd : Int) (shape astrides ystrides : Int → Int)
    (axis fast_axis : Int) (i : Int) (s : iter2 × Int) : Option (iter2 × Int) := do
  let ai ← rd nd astrides i
  let it1 : iter2 :=
    { s.1 with
        indices := Function.update s.1.indices i 0
        astrides := Function.update s.1.astrides i ai }
  let s2 : iter2 × Int ←
    if i = axis then
      pure ({ it1 with ystrides := Function.update it1.ystrides i 0 }, s.2)
    else do
      let yj ← rd ynd ystrides s.2
      pure ({ it1 with ystrides := Function.update it1.ystrides i yj }, s.2 + 1)
  let si ← rd nd shape i
  let it3 : iter2 := { s2.1 with shape := Function.update s2.1.shape i si }
  if i ≠ fast_axis then
    pure ({ it3 with nits := it3.nits * si }, s2.2)
  else
    pure (it3, s2.2)

/-- The first n passes of the for loop of init_iter2, every read checked. -/
def init_iter2_steps_checked (nd ynd : Int) (shape astrides ystrides : Int → Int)
    (axis fast_axis : Int) (s : iter2 × Int) : Nat → Option (iter2 × Int)
  | 0 => some s
  | n + 1 => do
    let s1 ← init_iter2_steps_checked nd ynd shape astrides ystrides axis fast_axis s n
    init_iter2_body_checked nd ynd shape astrides ystrides axis fast_axis (n : Int) s1

/-- The function init_iter2 (lines 102-138) with every read of the shape and
strides of a (nd cells each) and of the strides of y (nd of y cells) checked:
none as soon as one read falls outside the cells of its array. -/
def init_iter2_checked (it : iter2) (a y : PyArrayObject) (axis fast_axis : Int) :
    Option iter2 := do
  let ndim := PyArray_NDIM a
  let shape := PyArray_SHAPE a
  let astrides := PyArray_STRIDES a
  let ystrides := PyArray_STRIDES y
  let ynd := PyArray_NDIM y
  let astride ← rd ndim astrides fast_axis
  let length ← rd ndim shape fast_axis
  let ystride ←
    if fast_axis < axis then rd ynd ystrides fast_axis else rd ynd ystrides (fast_axis - 1)
  let it0 : iter2 :=
    { it with
        axis := axis, fast_axis := fast_axis, its := 0, nits := 1, ndim := ndim
        pa := PyArray_BYTES a, py := PyArray_BYTES y
        astride := astride
        length := length
        ystride := ystride }
  let s ← init_iter2_steps_checked ndim ynd shape astrides ystrides axis fast_axis (it0, 0)
    ndim.toNat
  pure s.1

/-- The for loop of NEXT2 (lines 141-163) from the test of its condition on,
with a bound on the number of passes still allowed. Every pass either breaks
or lowers it.i by one, so it.i + 1 passes always suffice (NEXT2_loop_fuel). -/
def NEXT2_loop : Nat → iter2 → iter2
  | 0, it => it
  | fuel + 1, it =>
    if it.i > -1 then
      if it.i = it.fast_axis then
        NEXT2_loop fuel { it with i := it.i - 1 }
      else if it.i = it.axis then
        if it.indices it.i < it.shape it.i - 1 then
          { it with
              pa := it.pa + it.astrides it.i
              indices := Function.update it.indices it.i (it.indices it.i + 1) }
        else
          NEXT2_loop fuel
            { it with
                pa := it.pa - it.indices it.i * it.astrides it.i
                indices := Function.update it.indices it.i 0
                i := it.i - 1 }
      else
        if it.indices it.i < it.shape it.i - 1 then
          { it with
              pa := it.pa + it.astrides it.i
              py := it.py + it.ystrides it.i
              indices := Function.update it.indices it.i (it.indices it.i + 1) }
        else
          NEXT2_loop fuel
            { it with
                pa := it.pa - it.indices it.i * it.astrides it.i
                py := it.py - it.indices it.i * it.ystrides it.i
                indices := Function.update it.indices it.i 0
                i := it.i - 1 }
    else it

/-- The statement NEXT2 of iterators.h, lines 140-164. -/
def NEXT2 (it : iter2) : iter2 :=
  let it1 := NEXT2_loop it.ndim.toNat { it with i := it.ndim - 1 }
  { it1 with its := it1.its + 1 }

/-! ## Notions used to state the properties -/

/-- The position of the view that outer position p of the iterator holds:
the positions of the view in their order, axis left out. -/
def unskip (axis p : Int) : Int := if p < axis then p else p + 1

/-- The part of the pointer of an iter that its first n indices do not
account for: pa less the sum of indices[d] * astrides[d] over d < n. -/
def iter.slack (it : iter) (n : Nat) : Int :=
  it.pa - ∑ d ∈ Finset.range n, it.indices (d : Int) * it.astrides (d : Int)

/-- The row-major rank (Horner form) of the first m entries of idx over the
lengths shape: position m - 1 is the least significant. -/
def rowMajorRank (shape idx : Int → Int) : Nat → Int
  | 0 => 0
  | m + 1 => rowMajorRank shape idx m * shape (m : Int) + idx (m : Int)

/-- The mixed-radix representation of k over the first m lengths of shape,
last position least significant: digit m - 1 is k mod shape[m - 1], and the
digits before it represent k div shape[m - 1]. -/
def mixedRadix (shape : Int → Int) : Nat → Int → Int → Int
  | 0, _ => fun _ => 0
  | m + 1, k =>
    Function.update (mixedRadix shape m (k / shape (m : Int))) (m : Int) (k % shape (m : Int))

/-- Every one of the first m entries of idx is a digit: 0 <= idx[j] < shape[j]. -/
def InBounds (shape idx : Int → Int) (m : Nat) : Prop :=
  ∀ j : Nat, j < m → 0 ≤ idx (j : Int) ∧ idx (j : Int) < shape (j : Int)

/-- The outer lengths of a view: its lengths in their order, axis left out. -/
def outerShape (a : PyArrayObject) (axis : Int) : Int → Int :=
  fun p => a.dimensions (if p < axis then p else p + 1)

/-- The stride of the target pointer at position d as NEXT2 applies it: the
branch for d = axis leaves py alone, the other branch moves it by ystrides[d]. -/
def maskAt (axis : Int) (ystrides : Int → Int) (d : Int) : Int :=
  if d = axis then 0 else ystrides d

/-- The part of the source pointer of an iter2 that its first n indices do
not account for. -/
def iter2.slack_a (it : iter2) (n : Nat) : Int :=
  it.pa - ∑ d ∈ Finset.range n, it.indices (d : Int) * it.astrides (d : Int)

/-- The part of the target pointer of an iter2 that its first n indices,
the one at axis left out, do not account for. -/
def iter2.slack_y (it : iter2) (n : Nat) : Int :=
  it.py - ∑ d ∈ Finset.range n, it.indices (d : Int) * maskAt it.axis it.ystrides (d : Int)

/-- What a run of NEXT2 from it to r leaves as it found it: the two slacks
over the first n positions, the index at fast_axis, and every field other
than indices, pa, py, i and its. -/
def NEXT2_keeps (n : Nat) (it r : iter2) : Prop :=
  r.slack_a n = it.slack_a n ∧ r.slack_y n = it.slack_y n ∧
  r.indices it.fast_axis = it.indices it.fast_axis ∧
  r.astrides = it.astrides ∧ r.ystrides = it.ystrides ∧ r.shape = it.shape ∧
  r.ndim = it.ndim ∧ r.axis = it.axis ∧ r.fast_axis = it.fast_axis ∧
  r.nits = it.nits ∧ r.length = it.length ∧ r.astride = it.astride ∧
  r.ystride = it.ystride

/-- A 2 by 3 by 4 view of 8-byte elements in C order, based at address 1000. -/
def view234 : PyArrayObject := mkArray [2, 3, 4] [96, 32, 8] 1000

/-- A 2 by 4 view of 8-byte elements in C order, based at address 5000: the
shape of view234 with position 1 removed. -/
def view24 : PyArrayObject := mkArray [2, 4] [32, 8] 5000

/-- The paired iterator it2, whose loop skips position F, carries the single
iterator it: same pointer into the source, and position p of it (p < N) is
position unskip F p of it2 for the indices, the lengths and the strides. -/
def Sim (F : Int) (N : Nat) (it : iter) (it2 : iter2) : Prop :=
  it2.fast_axis = F ∧ it.pa = it2.pa ∧
  ∀ p : Int, 0 ≤ p → p < (N : Int) →
    it.indices p = it2.indices (unskip F p) ∧ it.shape p = it2.shape (unskip F p) ∧
    it.astrides p = it2.astrides (unskip F p)

/-- The loop WHILE { body; NEXT } over an iter (WHILE is line 174: while
(it.its < it.nits)), with a bound on the passes still allowed; the second
component counts the passes through the block. -/
def WHILE_NEXT (body : iter → iter) : Nat → iter × Nat → iter × Nat
  | 0, s => s
  | fuel + 1, s =>
    if s.1.its < s.1.nits then WHILE_NEXT body fuel (NEXT (body s.1), s.2 + 1) else s

/-- The loop WHILE { body; NEXT2 } over an iter2, with a bound on the passes
still allowed; the second component counts the passes through the block. -/
def WHILE_NEXT2 (body : iter2 → iter2) : Nat → iter2 × Nat → iter2 × Nat
  | 0, s => s
  | fuel + 1, s =>
    if s.1.its < s.1.nits then WHILE_NEXT2 body fuel (NEXT2 (body s.1), s.2 + 1) else s

/-- The coordinate of the view obtained from an outer coordinate by inserting
j at position axis: the entries before axis keep their place, the entries
from axis on move up by one. -/
def insertAt (axis : Int) (outer : Int → Int) (j : Int) : Int → Int :=
  fun i => if i < axis then outer i else if i = axis then j else outer (i - 1)

/-! ## init_iter: what the construction loop leaves -/

theorem init_iter_steps_frame (shape strides : Int → Int) (axis : Int) (s : iter × Int)
    (n : Nat) :
    (init_iter_steps shape strides axis s n).1.ndim_m2 = s.1.ndim_m2 ∧
    (init_iter_steps shape strides axis s n).1.its = s.1.its ∧
    (init_iter_steps shape strides axis s n).1.pa = s.1.pa ∧
    (init_iter_steps shape strides axis s n).1.axis = s.1.axis ∧
    (init_iter_steps shape strides axis s n).1.i = s.1.i := by
  induction n with
  | zero => simp [init_iter_steps]
  | succ n ih =>
    simp only [init_iter_steps, init_iter_body]
    split_ifs <;> simpa using ih

theorem init_iter_steps_j (shape strides : Int → Int) (axis : Int) (it : iter)
    (n : Nat) :
    (init_iter_steps shape strides axis (it, 0) n).2
      = if 0 ≤ axis ∧ axis < (n : Int) then (n : Int) - 1 else (n : Int) := by
  induction n with
  | zero => simp [init_iter_steps]; omega
  | succ n ih =>
    simp only [init_iter_steps, init_iter_body]
    split_ifs at ih ⊢ <;> simp_all <;> omega

theorem init_iter_steps_axis (shape strides : Int → Int) (axis : Int) (it : iter)
    (n : Nat) :
    (init_iter_steps shape strides axis (it, 0) n).1.astride
      = (if 0 ≤ axis ∧ axis < (n : Int) then strides axis else it.astride) ∧
    (init_iter_steps shape strides axis (it, 0) n).1.length
      = (if 0 ≤ axis ∧ axis < (n : Int) then shape axis else it.length) := by
  induction n with
  | zero => simp [init_iter_steps]; constructor <;> omega
  | succ n ih =>
    simp only [init_iter_steps, init_iter_body]
    obtain ⟨ih1, ih2⟩ := ih
    by_cases h : (n : Int) = axis
    · subst h
      simp
    · have e : (0 ≤ axis ∧ axis < ((n + 1 : Nat) : Int)) ↔ (0 ≤ axis ∧ axis < (n : Int)) := by
        push_cast; constructor <;> rintro ⟨a, b⟩ <;> constructor <;> omega
      simp only [if_neg h, e, ih1, ih2, and_self]

theorem init_iter_steps_nits (shape strides : Int → Int) (axis : Int) (it : iter)
    (n : Nat) :
    (init_iter_steps shape strides axis (it, 0) n).1.nits
      = it.nits *
          ∏ k ∈ (Finset.range n).filter (fun k : Nat => (k : Int) ≠ axis), shape (k : Int) := by
  induction n with
  | zero => simp [init_iter_steps]
  | succ n ih =>
    simp only [init_iter_steps, init_iter_body]
    rw [Finset.range_succ, Finset.filter_insert]
    by_cases h : (n : Int) = axis
    · simp [h, ih]
    · rw [if_neg h, if_pos h, Finset.prod_insert (by simp)]
      simp only [ih]
      ring

theorem init_iter_steps_outer (shape strides : Int → Int) (axis : Int) (it : iter)
    (hax : 0 ≤ axis) (n : Nat) (p : Int) (hp0 : 0 ≤ p)
    (hp : p < (init_iter_steps shape strides axis (it, 0) n).2) :
    (init_iter_steps shape strides axis (it, 0) n).1.shape p = shape (unskip axis p) ∧
    (init_iter_steps shape strides axis (it, 0) n).1.astrides p = strides (unskip axis p) ∧
    (init_iter_steps shape strides axis (it, 0) n).1.indices p = 0 := by
  induction n with
  | zero => simp [init_iter_steps] at hp; omega
  | succ n ih =>
    have hj := init_iter_steps_j shape strides axis it n
    simp only [init_iter_steps, init_iter_body] at hp ⊢
    by_cases h : (n : Int) = axis
    · simp only [if_pos h] at hp ⊢
      exact ih hp
    · simp only [if_neg h] at hp ⊢
      by_cases hpj : p = (init_iter_steps shape strides axis (it, 0) n).2
      · have hu : unskip axis p = (n : Int) := by
          unfold unskip
          rw [hpj, hj]
          split_ifs <;> omega
        rw [hu, hpj]
        simp
      · have hlt : p < (init_iter_steps shape strides axis (it, 0) n).2 := by omega
        simp only [Function.update_noteq hpj]
        exact ih hlt

theorem init_iter_frame (it : iter) (a : PyArrayObject) (axis : Int) :
    (init_iter it a axis).ndim_m2 = a.nd - 2 ∧ (init_iter it a axis).its = 0 ∧
    (init_iter it a axis).pa = a.data ∧ (init_iter it a axis).axis = axis ∧
    (init_iter it a axis).i = it.i := by
  simpa [init_iter, PyArray_NDIM, PyArray_BYTES] using
    init_iter_steps_frame (PyArray_SHAPE a) (PyArray_STRIDES a) axis
      ({ it with axis := axis, its := 0, nits := 1, ndim_m2 := a.nd - 2, pa := a.data }, 0)
      a.nd.toNat

theorem init_iter_axis (it : iter) (a : PyArrayObject) (axis : Int)
    (h0 : 0 ≤ axis) (h1 : axis < a.nd) :
    (init_iter it a axis).astride = a.strides axis ∧
    (init_iter it a axis).length = a.dimensions axis := by
  have h := init_iter_steps_axis (PyArray_SHAPE a) (PyArray_STRIDES a) axis
      { it with axis := axis, its := 0, nits := 1, ndim_m2 := a.nd - 2, pa := a.data }
      a.nd.toNat
  have hc : 0 ≤ axis ∧ axis < ((a.nd.toNat : Nat) : Int) := ⟨h0, by omega⟩
  rw [if_pos hc, if_pos hc] at h
  simpa [init_iter, PyArray_NDIM, PyArray_BYTES, PyArray_SHAPE, PyArray_STRIDES] using h

theorem init_iter_nits (it : iter) (a : PyArrayObject) (axis : Int) :
    (init_iter it a axis).nits
      = ∏ k ∈ (Finset.range a.nd.toNat).filter (fun k : Nat => (k : Int) ≠ axis),
          a.dimensions (k : Int) := by
  have h := init_iter_steps_nits (PyArray_SHAPE a) (PyArray_STRIDES a) axis
      { it with axis := axis, its := 0, nits := 1, ndim_m2 := a.nd - 2, pa := a.data }
      a.nd.toNat
  simpa [init_iter, PyArray_NDIM, PyArray_BYTES, PyArray_SHAPE, PyArray_STRIDES] using h

theorem init_iter_outer (it : iter) (a : PyArrayObject) (axis : Int)
    (h0 : 0 ≤ axis) (h1 : axis < a.nd) (p : Int) (hp0 : 0 ≤ p) (hp : p < a.nd - 1) :
    (init_iter it a axis).shape p = a.dimensions (unskip axis p) ∧
    (init_iter it a axis).astrides p = a.strides (unskip axis p) ∧
    (init_iter it a axis).indices p = 0 := by
  have hj := init_iter_steps_j (PyArray_SHAPE a) (PyArray_STRIDES a) axis
      { it with axis := axis, its := 0, nits := 1, ndim_m2 := a.nd - 2, pa := a.data }
      a.nd.toNat
  have hc : 0 ≤ axis ∧ axis < ((a.nd.toNat : Nat) : Int) := ⟨h0, by omega⟩
  rw [if_pos hc] at hj
  have h := init_iter_steps_outer (PyArray_SHAPE a) (PyArray_STRIDES a) axis
      { it with axis := axis, its := 0, nits := 1, ndim_m2 := a.nd - 2, pa := a.data }
      h0 a.nd.toNat p hp0 (by rw [hj]; omega)
  simpa [init_iter, PyArray_NDIM, PyArray_BYTES, PyArray_SHAPE, PyArray_STRIDES] using h

/-! ## NEXT: the pointer follows the indices -/

theorem sum_update_mul (f g : Int → Int) (p v : Int) (n : Nat) :
    ∑ d ∈ Finset.range n, (Function.update f p v) (d : Int) * g (d : Int)
      = ∑ d ∈ Finset.range n, f (d : Int) * g (d : Int)
        + (if 0 ≤ p ∧ p < (n : Int) then (v - f p) * g p else 0) := by
  induction n with
  | zero =>
    have : ¬ (0 ≤ p ∧ p < ((0 : Nat) : Int)) := by push_cast; omega
    rw [if_neg this]
    simp
  | succ n ih =>
    rw [Finset.sum_range_succ, Finset.sum_range_succ, ih]
    by_cases h : (n : Int) = p
    · subst h
      have c1 : ¬ (0 ≤ (n : Int) ∧ (n : Int) < (n : Int)) := by omega
      have c2 : 0 ≤ (n : Int) ∧ (n : Int) < ((n + 1 : Nat) : Int) := by push_cast; omega
      rw [if_neg c1, if_pos c2, Function.update_same]
      ring
    · rw [Function.update_noteq h]
      by_cases c : 0 ≤ p ∧ p < (n : Int)
      · have c2 : 0 ≤ p ∧ p < ((n + 1 : Nat) : Int) := by push_cast; omega
        rw [if_pos c, if_pos c2]
        ring
      · have c2 : ¬ (0 ≤ p ∧ p < ((n + 1 : Nat) : Int)) := by push_cast; omega
        rw [if_neg c, if_neg c2]
        ring

/-- More passes than it.i + 1 are never used: the loop has left by then. -/
theorem NEXT_loop_fuel (fuel : Nat) (it : iter) (h : (it.i + 1).toNat ≤ fuel) :
    NEXT_loop fuel it = NEXT_loop (it.i + 1).toNat it := by
  induction fuel generalizing it with
  | zero =>
    have : (it.i + 1).toNat = 0 := by omega
    rw [this]
  | succ fuel ih =>
    by_cases hi : it.i > -1
    · obtain ⟨m, hm⟩ : ∃ m : Nat, (it.i + 1).toNat = m + 1 := ⟨it.i.toNat, by omega⟩
      rw [hm]
      simp only [NEXT_loop, if_pos hi]
      split_ifs
      · rfl
      · rw [ih _ (by simp only; omega)]
        have : (it.i - 1 + 1).toNat = m := by omega
        simp only [this]
    · have : (it.i + 1).toNat = 0 := by omega
      rw [this]
      simp [NEXT_loop, hi]

theorem NEXT_loop_inv (n : Nat) (fuel : Nat) (it : iter) (h : it.i < (n : Int)) :
    (NEXT_loop fuel it).slack n = it.slack n ∧
    (NEXT_loop fuel it).astrides = it.astrides ∧ (NEXT_loop fuel it).shape = it.shape ∧
    (NEXT_loop fuel it).ndim_m2 = it.ndim_m2 ∧ (NEXT_loop fuel it).its = it.its ∧
    (NEXT_loop fuel it).nits = it.nits ∧ (NEXT_loop fuel it).length = it.length ∧
    (NEXT_loop fuel it).astride = it.astride ∧ (NEXT_loop fuel it).axis = it.axis := by
  induction fuel generalizing it with
  | zero => simp [NEXT_loop]
  | succ fuel ih =>
    simp only [NEXT_loop]
    by_cases hi : it.i > -1
    · have c : 0 ≤ it.i ∧ it.i < (n : Int) := ⟨by omega, h⟩
      rw [if_pos hi]
      split_ifs
      · refine ⟨?_, rfl, rfl, rfl, rfl, rfl, rfl, rfl, rfl⟩
        simp only [iter.slack, sum_update_mul, if_pos c]
        ring
      · have h2 := ih { it with
              pa := it.pa - it.indices it.i * it.astrides it.i
              indices := Function.update it.indices it.i 0
              i := it.i - 1 } (by simp only; omega)
        refine ⟨?_, h2.2⟩
        rw [h2.1]
        simp only [iter.slack, sum_update_mul, if_pos c]
        ring
    · simp [hi]

theorem NEXT_inv (it : iter) :
    (NEXT it).slack (it.ndim_m2 + 1).toNat = it.slack (it.ndim_m2 + 1).toNat ∧
    (NEXT it).astrides = it.astrides ∧ (NEXT it).shape = it.shape ∧
    (NEXT it).ndim_m2 = it.ndim_m2 ∧ (NEXT it).its = it.its + 1 ∧
    (NEXT it).nits = it.nits ∧ (NEXT it).length = it.length ∧
    (NEXT it).astride = it.astride ∧ (NEXT it).axis = it.axis := by
  have h := NEXT_loop_inv (it.ndim_m2 + 1).toNat (it.ndim_m2 + 1).toNat
    { it with i := it.ndim_m2 } (by simp only; omega)
  obtain ⟨h1, h2, h3, h4, h5, h6, h7, h8, h9⟩ := h
  refine ⟨?_, h2, h3, h4, ?_, h6, h7, h8, h9⟩
  · simpa [NEXT, iter.slack] using h1
  · simp [NEXT, h5]

theorem NEXT_iterate_inv (it : iter) (n : Nat) :
    (NEXT^[n] it).slack (it.ndim_m2 + 1).toNat = it.slack (it.ndim_m2 + 1).toNat ∧
    (NEXT^[n] it).astrides = it.astrides ∧ (NEXT^[n] it).shape = it.shape ∧
    (NEXT^[n] it).ndim_m2 = it.ndim_m2 ∧ (NEXT^[n] it).its = it.its + n ∧
    (NEXT^[n] it).nits = it.nits ∧ (NEXT^[n] it).length = it.length ∧
    (NEXT^[n] it).astride = it.astride ∧ (NEXT^[n] it).axis = it.axis := by
  induction n with
  | zero => simp
  | succ n ih =>
    rw [Function.iterate_succ_apply']
    obtain ⟨h1, h2, h3, h4, h5, h6, h7, h8, h9⟩ := ih
    obtain ⟨g1, g2, g3, g4, g5, g6, g7, g8, g9⟩ := NEXT_inv (NEXT^[n] it)
    rw [h4] at g1
    refine ⟨g1.trans h1, g2.trans h2, g3.trans h3, g4.trans h4, ?_, g6.trans h6,
      g7.trans h7, g8.trans h8, g9.trans h9⟩
    rw [g5, h5]
    push_cast
    ring

theorem init_iter_slack (it : iter) (a : PyArrayObject) (axis : Int)
    (h0 : 0 ≤ axis) (h1 : axis < a.nd) :
    (init_iter it a axis).slack (a.nd - 1).toNat = a.data := by
  have hz : ∀ d ∈ Finset.range (a.nd - 1).toNat,
      (init_iter it a axis).indices (d : Int) * (init_iter it a axis).astrides (d : Int) = 0 := by
    intro d hd
    have hd2 : d < (a.nd - 1).toNat := Finset.mem_range.mp hd
    rw [(init_iter_outer it a axis h0 h1 (d : Int) (by omega) (by omega)).2.2]
    ring
  rw [iter.slack, Finset.sum_eq_zero hz, (init_iter_frame it a axis).2.2.1]
  ring

theorem NEXT_iterate_pa (it : iter) (a : PyArrayObject) (axis : Int)
    (h0 : 0 ≤ axis) (h1 : axis < a.nd) (n : Nat) :
    (NEXT^[n] (init_iter it a axis)).pa
      = a.data + ∑ d ∈ Finset.range (a.nd - 1).toNat,
          (NEXT^[n] (init_iter it a axis)).indices (d : Int)
            * (NEXT^[n] (init_iter it a axis)).astrides (d : Int) := by
  have h := (NEXT_iterate_inv (init_iter it a axis) n).1
  have e : ((init_iter it a axis).ndim_m2 + 1).toNat = (a.nd - 1).toNat := by
    rw [(init_iter_frame it a axis).1]
    congr 1
    ring
  rw [e, init_iter_slack it a axis h0 h1] at h
  unfold iter.slack at h
  linarith

/-! ## Row-major ranks and mixed-radix digits -/

theorem rowMajorRank_congr (shape shape' idx idx' : Int → Int) (m : Nat)
    (hs : ∀ j : Nat, j < m → shape (j : Int) = shape' (j : Int))
    (hi : ∀ j : Nat, j < m → idx (j : Int) = idx' (j : Int)) :
    rowMajorRank shape idx m = rowMajorRank shape' idx' m := by
  induction m with
  | zero => rfl
  | succ m ih =>
    simp only [rowMajorRank]
    rw [ih (fun j hj => hs j (by omega)) (fun j hj => hi j (by omega)),
      hs m (by omega), hi m (by omega)]

theorem rowMajorRank_bounds (shape idx : Int → Int) (m : Nat) (h : InBounds shape idx m) :
    0 ≤ rowMajorRank shape idx m ∧
    rowMajorRank shape idx m < ∏ j ∈ Finset.range m, shape (j : Int) := by
  induction m with
  | zero => simp [rowMajorRank]
  | succ m ih =>
    obtain ⟨a0, a1⟩ := ih (fun j hj => h j (by omega))
    obtain ⟨b0, b1⟩ := h m (by omega)
    simp only [rowMajorRank]
    rw [Finset.prod_range_succ]
    constructor
    · have : 0 ≤ rowMajorRank shape idx m * shape (m : Int) :=
        mul_nonneg a0 (by omega)
      omega
    · have : (rowMajorRank shape idx m + 1) * shape (m : Int)
          ≤ (∏ j ∈ Finset.range m, shape (j : Int)) * shape (m : Int) :=
        mul_le_mul_of_nonneg_right (by omega) (by omega)
      linarith

theorem mixedRadix_rowMajorRank (shape idx : Int → Int) (m : Nat) (h : InBounds shape idx m)
    (j : Nat) (hj : j < m) :
    mixedRadix shape m (rowMajorRank shape idx m) (j : Int) = idx (j : Int) := by
  induction m with
  | zero => omega
  | succ m ih =>
    obtain ⟨b0, b1⟩ := h m (by omega)
    have hpos : 0 < shape (m : Int) := by omega
    simp only [mixedRadix, rowMajorRank]
    by_cases e : j = m
    · subst e
      rw [Function.update_same, Int.add_emod, Int.mul_emod_left, zero_add, Int.emod_emod,
        Int.emod_eq_of_lt b0 b1]
    · have hne : (j : Int) ≠ (m : Int) := by omega
      rw [Function.update_noteq hne]
      have hq : (rowMajorRank shape idx m * shape (m : Int) + idx (m : Int)) / shape (m : Int)
          = rowMajorRank shape idx m := by
        rw [add_comm, Int.add_mul_ediv_right _ _ (by omega), Int.ediv_eq_zero_of_lt b0 b1,
          zero_add]
      rw [hq]
      exact ih (fun j hj => h j (by omega)) (by omega)

theorem rowMajorRank_inj (shape idx idx' : Int → Int) (m : Nat) (h : InBounds shape idx m)
    (h' : InBounds shape idx' m)
    (e : rowMajorRank shape idx m = rowMajorRank shape idx' m) (j : Nat) (hj : j < m) :
    idx (j : Int) = idx' (j : Int) := by
  rw [← mixedRadix_rowMajorRank shape idx m h j hj, e,
    mixedRadix_rowMajorRank shape idx' m h' j hj]

theorem rowMajorRank_lex (shape idx idx' : Int → Int) (m : Nat) (h : InBounds shape idx m)
    (h' : InBounds shape idx' m)
    (lt : rowMajorRank shape idx m < rowMajorRank shape idx' m) :
    ∃ d : Nat, d < m ∧ (∀ j : Nat, j < d → idx (j : Int) = idx' (j : Int)) ∧
      idx (d : Int) < idx' (d : Int) := by
  induction m with
  | zero => simp [rowMajorRank] at lt
  | succ m ih =>
    have hb : InBounds shape idx m := fun j hj => h j (by omega)
    have hb' : InBounds shape idx' m := fun j hj => h' j (by omega)
    obtain ⟨b0, b1⟩ := h m (by omega)
    obtain ⟨c0, c1⟩ := h' m (by omega)
    simp only [rowMajorRank] at lt
    rcases lt_trichotomy (rowMajorRank shape idx m) (rowMajorRank shape idx' m) with g | g | g
    · obtain ⟨d, hd, hagree, hlt⟩ := ih hb hb' g
      exact ⟨d, by omega, hagree, hlt⟩
    · refine ⟨m, by omega, fun j hj => rowMajorRank_inj shape idx idx' m hb hb' g j hj, ?_⟩
      rw [g] at lt
      omega
    · exfalso
      have : (rowMajorRank shape idx' m + 1) * shape (m : Int)
          ≤ rowMajorRank shape idx m * shape (m : Int) :=
        mul_le_mul_of_nonneg_right (by omega) (by omega)
      linarith

theorem rowMajorRank_zero (shape idx : Int → Int) (m : Nat)
    (h : ∀ j : Nat, j < m → idx (j : Int) = 0) : rowMajorRank shape idx m = 0 := by
  induction m with
  | zero => rfl
  | succ m ih =>
    simp only [rowMajorRank]
    rw [ih (fun j hj => h j (by omega)), h m (by omega)]
    ring

/-! ## NEXT: the indices count in mixed radix -/

theorem NEXT_loop_rank (m : Nat) (it : iter) (hi : it.i = (m : Int) - 1)
    (hb : InBounds it.shape it.indices m) :
    InBounds it.shape (NEXT_loop m it).indices m ∧
    rowMajorRank it.shape (NEXT_loop m it).indices m
      = (rowMajorRank it.shape it.indices m + 1) % ∏ j ∈ Finset.range m, it.shape (j : Int) ∧
    ∀ p : Int, (m : Int) ≤ p → (NEXT_loop m it).indices p = it.indices p := by
  induction m generalizing it with
  | zero => simp [NEXT_loop, rowMajorRank, InBounds]
  | succ m ih =>
    have hi' : it.i = (m : Int) := by push_cast at hi; omega
    have hpos : it.i > -1 := by omega
    obtain ⟨b0, b1⟩ := hb m (by omega)
    have hbm : InBounds it.shape it.indices m := fun j hj => hb j (by omega)
    obtain ⟨r0, r1⟩ := rowMajorRank_bounds it.shape it.indices m hbm
    have hle : (rowMajorRank it.shape it.indices m + 1) * it.shape (m : Int)
        ≤ (∏ j ∈ Finset.range m, it.shape (j : Int)) * it.shape (m : Int) :=
      mul_le_mul_of_nonneg_right (by omega) (by omega)
    have hr0 : 0 ≤ rowMajorRank it.shape it.indices m * it.shape (m : Int) :=
      mul_nonneg r0 (by omega)
    have hpos' : (m : Int) > -1 := by omega
    simp only [NEXT_loop, hi', if_pos hpos']
    by_cases hc : it.indices (m : Int) < it.shape (m : Int) - 1
    · simp only [if_pos hc]
      have hcongr : rowMajorRank it.shape
          (Function.update it.indices (m : Int) (it.indices (m : Int) + 1)) m
          = rowMajorRank it.shape it.indices m :=
        rowMajorRank_congr _ _ _ _ m (fun _ _ => rfl)
          (fun j hj => Function.update_noteq (by omega) _ _)
      refine ⟨?_, ?_, ?_⟩
      · intro j hj
        by_cases e : j = m
        · subst e
          rw [Function.update_same]
          omega
        · rw [Function.update_noteq (by omega)]
          exact hb j hj
      · simp only [rowMajorRank]
        rw [hcongr, Function.update_same, Finset.prod_range_succ, Int.emod_eq_of_lt]
        · ring
        · omega
        · linarith
      · intro p hp
        rw [Function.update_noteq (by push_cast at hp; omega)]
    · simp only [if_neg hc]
      have hmax : it.indices (m : Int) = it.shape (m : Int) - 1 := by omega
      have h2 := ih { it with
            pa := it.pa - it.indices (m : Int) * it.astrides (m : Int)
            indices := Function.update it.indices (m : Int) 0
            i := (m : Int) - 1 } rfl
          (fun j hj => by
            simp only
            rw [Function.update_noteq (by omega)]
            exact hb j (by omega))
      simp only at h2
      obtain ⟨g1, g2, g3⟩ := h2
      have hcongr : rowMajorRank it.shape (Function.update it.indices (m : Int) 0) m
          = rowMajorRank it.shape it.indices m :=
        rowMajorRank_congr _ _ _ _ m (fun _ _ => rfl)
          (fun j hj => Function.update_noteq (by omega) _ _)
      have hm0 := g3 (m : Int) le_rfl
      rw [Function.update_same] at hm0
      refine ⟨?_, ?_, ?_⟩
      · intro j hj
        by_cases e : j = m
        · subst e
          rw [hm0]
          omega
        · exact g1 j (by omega)
      · simp only [rowMajorRank]
        rw [g2, hm0, hcongr, Finset.prod_range_succ, hmax]
        have e1 : rowMajorRank it.shape it.indices m * it.shape (m : Int)
            + (it.shape (m : Int) - 1) + 1
            = it.shape (m : Int) * (rowMajorRank it.shape it.indices m + 1) := by ring
        rw [e1, mul_comm (∏ j ∈ Finset.range m, it.shape (j : Int)) (it.shape (m : Int)),
          Int.mul_emod_mul_of_pos _ _ (by omega)]
        ring
      · intro p hp
        rw [g3 p (by push_cast at hp; omega), Function.update_noteq (by push_cast at hp; omega)]

theorem NEXT_indices (it : iter) :
    (NEXT it).indices
      = (NEXT_loop (it.ndim_m2 + 1).toNat { it with i := it.ndim_m2 }).indices := rfl

theorem NEXT_rank (it : iter) (hn : -1 ≤ it.ndim_m2)
    (hb : InBounds it.shape it.indices (it.ndim_m2 + 1).toNat) :
    InBounds it.shape (NEXT it).indices (it.ndim_m2 + 1).toNat ∧
    rowMajorRank it.shape (NEXT it).indices (it.ndim_m2 + 1).toNat
      = (rowMajorRank it.shape it.indices (it.ndim_m2 + 1).toNat + 1)
          % ∏ j ∈ Finset.range (it.ndim_m2 + 1).toNat, it.shape (j : Int) := by
  have h := NEXT_loop_rank (it.ndim_m2 + 1).toNat { it with i := it.ndim_m2 }
    (by simp only; omega) hb
  rw [NEXT_indices]
  exact ⟨h.1, h.2.1⟩

theorem NEXT_iterate_rank (it : iter) (hn : -1 ≤ it.ndim_m2)
    (hb : InBounds it.shape it.indices (it.ndim_m2 + 1).toNat) (k : Nat) :
    InBounds it.shape (NEXT^[k] it).indices (it.ndim_m2 + 1).toNat ∧
    rowMajorRank it.shape (NEXT^[k] it).indices (it.ndim_m2 + 1).toNat
      = (rowMajorRank it.shape it.indices (it.ndim_m2 + 1).toNat + k)
          % ∏ j ∈ Finset.range (it.ndim_m2 + 1).toNat, it.shape (j : Int) := by
  induction k with
  | zero =>
    obtain ⟨r0, r1⟩ := rowMajorRank_bounds it.shape it.indices _ hb
    refine ⟨hb, ?_⟩
    simp only [Function.iterate_zero, id_eq, Nat.cast_zero, add_zero]
    exact (Int.emod_eq_of_lt r0 r1).symm
  | succ k ih =>
    obtain ⟨f1, f2, f3, f4, -⟩ := NEXT_iterate_inv it k
    have h := NEXT_rank (NEXT^[k] it) (by rw [f4]; exact hn) (by rw [f3, f4]; exact ih.1)
    rw [f3, f4] at h
    rw [Function.iterate_succ_apply']
    refine ⟨h.1, ?_⟩
    rw [h.2, ih.2, Int.emod_add_emod]
    push_cast
    ring_nf

/-! ## Products over the positions other than axis -/

theorem prod_filter_ne_eq_prod_unskip (f : Int → Int) (axis : Int) (h0 : 0 ≤ axis) (n : Nat) :
    ∏ k ∈ (Finset.range n).filter (fun k : Nat => (k : Int) ≠ axis), f (k : Int)
      = ∏ p ∈ Finset.range (if axis < (n : Int) then n - 1 else n),
          f (unskip axis (p : Int)) := by
  induction n with
  | zero =>
    have : ¬ axis < ((0 : Nat) : Int) := by push_cast; omega
    simp [this]
  | succ n ih =>
    rw [Finset.range_succ, Finset.filter_insert]
    have c1 : axis < ((n + 1 : Nat) : Int) ↔ axis ≤ (n : Int) := by push_cast; omega
    by_cases h : (n : Int) = axis
    · have c2 : ¬ axis < (n : Int) := by omega
      have c3 : axis < ((n + 1 : Nat) : Int) := by push_cast; omega
      rw [if_neg (by simpa using h), ih, if_neg c2, if_pos c3]
      simp
    · rw [if_pos (by simpa using h), Finset.prod_insert (by simp), ih]
      by_cases c2 : axis < (n : Int)
      · have c3 : axis < ((n + 1 : Nat) : Int) := by push_cast; omega
        obtain ⟨m, rfl⟩ : ∃ m, n = m + 1 := ⟨n - 1, by omega⟩
        rw [if_pos c2, if_pos c3]
        simp only [Nat.add_sub_cancel]
        rw [Finset.prod_range_succ, mul_comm]
        congr 1
        unfold unskip
        rw [if_neg (by push_cast at c2; omega)]
        push_cast
        rfl
      · have c3 : ¬ axis < ((n + 1 : Nat) : Int) := by push_cast; omega
        rw [if_neg c2, if_neg c3, Finset.prod_range_succ, mul_comm]
        congr 1
        unfold unskip
        rw [if_pos (by omega)]

/-! ## The run of NEXT from a freshly built iter -/

theorem init_iter_nits_outer (it : iter) (a : PyArrayObject) (axis : Int)
    (h0 : 0 ≤ axis) (h1 : axis < a.nd) :
    (init_iter it a axis).nits
      = ∏ p ∈ Finset.range (a.nd - 1).toNat, outerShape a axis (p : Int) := by
  rw [init_iter_nits, prod_filter_ne_eq_prod_unskip _ _ h0,
    if_pos (by omega : axis < ((a.nd.toNat : Nat) : Int))]
  have e : a.nd.toNat - 1 = (a.nd - 1).toNat := by omega
  rw [e]
  rfl

theorem NEXT_run_rank (it : iter) (a : PyArrayObject) (axis : Int)
    (h0 : 0 ≤ axis) (h1 : axis < a.nd)
    (hlen : ∀ j : Int, 0 ≤ j → j < a.nd → j ≠ axis → 1 ≤ a.dimensions j) (k : Nat) :
    InBounds (outerShape a axis) (NEXT^[k] (init_iter it a axis)).indices (a.nd - 1).toNat ∧
    rowMajorRank (outerShape a axis) (NEXT^[k] (init_iter it a axis)).indices (a.nd - 1).toNat
      = (k : Int) % (init_iter it a axis).nits := by
  have hnd : (init_iter it a axis).ndim_m2 = a.nd - 2 := (init_iter_frame it a axis).1
  have e : ((init_iter it a axis).ndim_m2 + 1).toNat = (a.nd - 1).toNat := by
    rw [hnd]
    congr 1
    ring
  have hshape : ∀ j : Nat, j < (a.nd - 1).toNat →
      (init_iter it a axis).shape (j : Int) = outerShape a axis (j : Int) := fun j hj =>
    (init_iter_outer it a axis h0 h1 (j : Int) (by omega) (by omega)).1
  have hidx : ∀ j : Nat, j < (a.nd - 1).toNat → (init_iter it a axis).indices (j : Int) = 0 :=
    fun j hj => (init_iter_outer it a axis h0 h1 (j : Int) (by omega) (by omega)).2.2
  have hpos : ∀ j : Nat, j < (a.nd - 1).toNat → 1 ≤ outerShape a axis (j : Int) := by
    intro j hj
    unfold outerShape
    split_ifs with c
    · exact hlen _ (by omega) (by omega) (by omega)
    · exact hlen _ (by omega) (by omega) (by omega)
  have hb : InBounds (init_iter it a axis).shape (init_iter it a axis).indices
      ((init_iter it a axis).ndim_m2 + 1).toNat := by
    rw [e]
    intro j hj
    rw [hidx j hj, hshape j hj]
    have := hpos j hj
    omega
  obtain ⟨g1, g2⟩ := NEXT_iterate_rank (init_iter it a axis) (by rw [hnd]; omega) hb k
  rw [e] at g1 g2
  rw [rowMajorRank_zero _ _ _ hidx, zero_add, Finset.prod_congr rfl
    (fun j hj => hshape j (Finset.mem_range.mp hj)), ← init_iter_nits_outer it a axis h0 h1] at g2
  refine ⟨fun j hj => ?_, ?_⟩
  · rw [← hshape j hj]
    exact g1 j hj
  · rw [← g2]
    exact rowMajorRank_congr _ _ _ _ _ (fun j hj => (hshape j hj).symm) (fun _ _ => rfl)

theorem NEXT_run_rank_lt (it : iter) (a : PyArrayObject) (axis : Int)
    (h0 : 0 ≤ axis) (h1 : axis < a.nd)
    (hlen : ∀ j : Int, 0 ≤ j → j < a.nd → j ≠ axis → 1 ≤ a.dimensions j) (k : Nat)
    (hk : (k : Int) < (init_iter it a axis).nits) :
    rowMajorRank (outerShape a axis) (NEXT^[k] (init_iter it a axis)).indices (a.nd - 1).toNat
      = (k : Int) := by
  rw [(NEXT_run_rank it a axis h0 h1 hlen k).2]
  exact Int.emod_eq_of_lt (by omega) hk

theorem NEXT_run_digits (it : iter) (a : PyArrayObject) (axis : Int)
    (h0 : 0 ≤ axis) (h1 : axis < a.nd)
    (hlen : ∀ j : Int, 0 ≤ j → j < a.nd → j ≠ axis → 1 ≤ a.dimensions j) (k : Nat)
    (hk : (k : Int) < (init_iter it a axis).nits) (j : Int) (hj0 : 0 ≤ j) (hj : j < a.nd - 1) :
    (NEXT^[k] (init_iter it a axis)).indices j
      = mixedRadix (outerShape a axis) (a.nd - 1).toNat (k : Int) j := by
  have h := mixedRadix_rowMajorRank (outerShape a axis)
    (NEXT^[k] (init_iter it a axis)).indices (a.nd - 1).toNat
    (NEXT_run_rank it a axis h0 h1 hlen k).1 j.toNat (by omega)
  rw [NEXT_run_rank_lt it a axis h0 h1 hlen k hk, Int.toNat_of_nonneg hj0] at h
  exact h.symm

theorem NEXT_run_distinct (it : iter) (a : PyArrayObject) (axis : Int)
    (h0 : 0 ≤ axis) (h1 : axis < a.nd)
    (hlen : ∀ j : Int, 0 ≤ j → j < a.nd → j ≠ axis → 1 ≤ a.dimensions j) (k k' : Nat)
    (hk : (k : Int) < (init_iter it a axis).nits) (hk' : (k' : Int) < (init_iter it a axis).nits)
    (hne : k ≠ k') :
    ∃ j : Int, 0 ≤ j ∧ j < a.nd - 1 ∧
      (NEXT^[k] (init_iter it a axis)).indices j ≠ (NEXT^[k'] (init_iter it a axis)).indices j := by
  by_contra hcon
  push_neg at hcon
  have e := rowMajorRank_congr (outerShape a axis) (outerShape a axis)
    (NEXT^[k] (init_iter it a axis)).indices (NEXT^[k'] (init_iter it a axis)).indices
    (a.nd - 1).toNat (fun _ _ => rfl) (fun j hj => hcon (j : Int) (by omega) (by omega))
  rw [NEXT_run_rank_lt it a axis h0 h1 hlen k hk,
    NEXT_run_rank_lt it a axis h0 h1 hlen k' hk'] at e
  exact hne (by exact_mod_cast e)

theorem NEXT_run_cover (it : iter) (a : PyArrayObject) (axis : Int)
    (h0 : 0 ≤ axis) (h1 : axis < a.nd)
    (hlen : ∀ j : Int, 0 ≤ j → j < a.nd → j ≠ axis → 1 ≤ a.dimensions j) (c : Int → Int)
    (hc : ∀ j : Int, 0 ≤ j → j < a.nd - 1 → 0 ≤ c j ∧ c j < outerShape a axis j) :
    ∃ k : Nat, (k : Int) < (init_iter it a axis).nits ∧
      ∀ j : Int, 0 ≤ j → j < a.nd - 1 → (NEXT^[k] (init_iter it a axis)).indices j = c j := by
  have hb : InBounds (outerShape a axis) c (a.nd - 1).toNat :=
    fun j hj => hc (j : Int) (by omega) (by omega)
  obtain ⟨r0, r1⟩ := rowMajorRank_bounds _ _ _ hb
  rw [← init_iter_nits_outer it a axis h0 h1] at r1
  refine ⟨(rowMajorRank (outerShape a axis) c (a.nd - 1).toNat).toNat, by omega, ?_⟩
  intro j hj0 hj
  have hk : (((rowMajorRank (outerShape a axis) c (a.nd - 1).toNat).toNat : Nat) : Int)
      < (init_iter it a axis).nits := by omega
  have e := NEXT_run_rank_lt it a axis h0 h1 hlen _ hk
  rw [Int.toNat_of_nonneg r0] at e
  have := rowMajorRank_inj _ _ _ _ (NEXT_run_rank it a axis h0 h1 hlen _).1 hb e j.toNat
    (by omega)
  rwa [Int.toNat_of_nonneg hj0] at this

theorem NEXT_run_cover_unique (it : iter) (a : PyArrayObject) (axis : Int)
    (h0 : 0 ≤ axis) (h1 : axis < a.nd)
    (hlen : ∀ j : Int, 0 ≤ j → j < a.nd → j ≠ axis → 1 ≤ a.dimensions j) (c : Int → Int)
    (hc : ∀ j : Int, 0 ≤ j → j < a.nd - 1 → 0 ≤ c j ∧ c j < outerShape a axis j) :
    ∃! k : Nat, (k : Int) < (init_iter it a axis).nits ∧
      ∀ j : Int, 0 ≤ j → j < a.nd - 1 → (NEXT^[k] (init_iter it a axis)).indices j = c j := by
  obtain ⟨k, hk, hkc⟩ := NEXT_run_cover it a axis h0 h1 hlen c hc
  refine ⟨k, ⟨hk, hkc⟩, ?_⟩
  rintro k' ⟨hk', hkc'⟩
  by_contra hne
  obtain ⟨j, hj0, hj, hdiff⟩ := NEXT_run_distinct it a axis h0 h1 hlen k' k hk' hk hne
  exact hdiff ((hkc' j hj0 hj).trans (hkc j hj0 hj).symm)

theorem NEXT_run_lex (it : iter) (a : PyArrayObject) (axis : Int)
    (h0 : 0 ≤ axis) (h1 : axis < a.nd)
    (hlen : ∀ j : Int, 0 ≤ j → j < a.nd → j ≠ axis → 1 ≤ a.dimensions j) (k k' : Nat)
    (hlt : k < k') (hk' : (k' : Int) < (init_iter it a axis).nits) :
    ∃ d : Int, 0 ≤ d ∧ d < a.nd - 1 ∧
      (∀ j : Int, 0 ≤ j → j < d →
        (NEXT^[k] (init_iter it a axis)).indices j
          = (NEXT^[k'] (init_iter it a axis)).indices j) ∧
      (NEXT^[k] (init_iter it a axis)).indices d
        < (NEXT^[k'] (init_iter it a axis)).indices d := by
  have hk : (k : Int) < (init_iter it a axis).nits := by omega
  obtain ⟨d, hd, hagree, hless⟩ := rowMajorRank_lex (outerShape a axis)
    (NEXT^[k] (init_iter it a axis)).indices (NEXT^[k'] (init_iter it a axis)).indices
    (a.nd - 1).toNat (NEXT_run_rank it a axis h0 h1 hlen k).1
    (NEXT_run_rank it a axis h0 h1 hlen k').1
    (by rw [NEXT_run_rank_lt it a axis h0 h1 hlen k hk,
          NEXT_run_rank_lt it a axis h0 h1 hlen k' hk']
        exact_mod_cast hlt)
  refine ⟨(d : Int), by omega, by omega, fun j hj0 hj => ?_, hless⟩
  have := hagree j.toNat (by omega)
  rwa [Int.toNat_of_nonneg hj0] at this

/-! ## init_iter2: what the construction loop leaves -/

theorem init_iter2_steps_frame (shape astrides ystrides : Int → Int) (axis fast_axis : Int)
    (s : iter2 × Int) (n : Nat) :
    (init_iter2_steps shape astrides ystrides axis fast_axis s n).1.ndim = s.1.ndim ∧
    (init_iter2_steps shape astrides ystrides axis fast_axis s n).1.axis = s.1.axis ∧
    (init_iter2_steps shape astrides ystrides axis fast_axis s n).1.fast_axis = s.1.fast_axis ∧
    (init_iter2_steps shape astrides ystrides axis fast_axis s n).1.length = s.1.length ∧
    (init_iter2_steps shape astrides ystrides axis fast_axis s n).1.astride = s.1.astride ∧
    (init_iter2_steps shape astrides ystrides axis fast_axis s n).1.ystride = s.1.ystride ∧
    (init_iter2_steps shape astrides ystrides axis fast_axis s n).1.its = s.1.its ∧
    (init_iter2_steps shape astrides ystrides axis fast_axis s n).1.pa = s.1.pa ∧
    (init_iter2_steps shape astrides ystrides axis fast_axis s n).1.py = s.1.py ∧
    (init_iter2_steps shape astrides ystrides axis fast_axis s n).1.i = s.1.i := by
  induction n with
  | zero => simp [init_iter2_steps]
  | succ n ih =>
    simp only [init_iter2_steps, init_iter2_body]
    split_ifs <;> simpa using ih

theorem init_iter2_steps_j (shape astrides ystrides : Int → Int) (axis fast_axis : Int)
    (it : iter2) (n : Nat) :
    (init_iter2_steps shape astrides ystrides axis fast_axis (it, 0) n).2
      = if 0 ≤ axis ∧ axis < (n : Int) then (n : Int) - 1 else (n : Int) := by
  induction n with
  | zero => simp [init_iter2_steps]; omega
  | succ n ih =>
    simp only [init_iter2_steps, init_iter2_body]
    split_ifs at ih ⊢ <;> simp_all <;> omega

theorem init_iter2_steps_nits (shape astrides ystrides : Int → Int) (axis fast_axis : Int)
    (it : iter2) (n : Nat) :
    (init_iter2_steps shape astrides ystrides axis fast_axis (it, 0) n).1.nits
      = it.nits *
          ∏ k ∈ (Finset.range n).filter (fun k : Nat => (k : Int) ≠ fast_axis),
            shape (k : Int) := by
  induction n with
  | zero => simp [init_iter2_steps]
  | succ n ih =>
    simp only [init_iter2_steps, init_iter2_body]
    rw [Finset.range_succ, Finset.filter_insert]
    by_cases h : (n : Int) = fast_axis
    · have hh : ¬ ((n : Int) ≠ fast_axis) := not_not.mpr h
      rw [if_neg hh, if_neg hh]
      split_ifs <;> simpa using ih
    · rw [if_pos h, if_pos h, Finset.prod_insert (by simp)]
      split_ifs <;> simp only [ih] <;> ring

theorem init_iter2_body_other (shape astrides ystrides : Int → Int) (axis fast_axis : Int)
    (i : Int) (s : iter2 × Int) (p : Int) (e : p ≠ i) :
    (init_iter2_body shape astrides ystrides axis fast_axis i s).1.indices p = s.1.indices p ∧
    (init_iter2_body shape astrides ystrides axis fast_axis i s).1.astrides p
      = s.1.astrides p ∧
    (init_iter2_body shape astrides ystrides axis fast_axis i s).1.shape p = s.1.shape p ∧
    (init_iter2_body shape astrides ystrides axis fast_axis i s).1.ystrides p
      = s.1.ystrides p := by
  simp only [init_iter2_body]
  split_ifs <;> simp [Function.update_noteq e]

theorem init_iter2_steps_cells (shape astrides ystrides : Int → Int) (axis fast_axis : Int)
    (it : iter2) (hax : 0 ≤ axis) (n : Nat) (p : Int) (hp0 : 0 ≤ p) (hp : p < (n : Int)) :
    (init_iter2_steps shape astrides ystrides axis fast_axis (it, 0) n).1.indices p = 0 ∧
    (init_iter2_steps shape astrides ystrides axis fast_axis (it, 0) n).1.astrides p
      = astrides p ∧
    (init_iter2_steps shape astrides ystrides axis fast_axis (it, 0) n).1.shape p = shape p ∧
    (init_iter2_steps shape astrides ystrides axis fast_axis (it, 0) n).1.ystrides p
      = (if p = axis then 0 else if p < axis then ystrides p else ystrides (p - 1)) := by
  induction n with
  | zero => push_cast at hp; omega
  | succ n ih =>
    have hj := init_iter2_steps_j shape astrides ystrides axis fast_axis it n
    simp only [init_iter2_steps, init_iter2_body]
    by_cases e : p = (n : Int)
    · subst e
      by_cases h : (n : Int) = axis
      · simp [h]
        split_ifs <;> simp
      · simp only [if_neg h, hj]
        split_ifs <;> simp <;> omega
    · have hlt : p < (n : Int) := by push_cast at hp; omega
      obtain ⟨i1, i2, i3, i4⟩ := ih hlt
      obtain ⟨o1, o2, o3, o4⟩ := init_iter2_body_other shape astrides ystrides axis fast_axis
        (n : Int) (init_iter2_steps shape astrides ystrides axis fast_axis (it, 0) n) p e
      simp only [init_iter2_body] at o1 o2 o3 o4
      exact ⟨o1.trans i1, o2.trans i2, o3.trans i3, o4.trans i4⟩

theorem init_iter2_frame (it : iter2) (a y : PyArrayObject) (axis fast_axis : Int) :
    (init_iter2 it a y axis fast_axis).ndim = a.nd ∧
    (init_iter2 it a y axis fast_axis).axis = axis ∧
    (init_iter2 it a y axis fast_axis).fast_axis = fast_axis ∧
    (init_iter2 it a y axis fast_axis).length = a.dimensions fast_axis ∧
    (init_iter2 it a y axis fast_axis).astride = a.strides fast_axis ∧
    (init_iter2 it a y axis fast_axis).ystride
      = (if fast_axis < axis then y.strides fast_axis else y.strides (fast_axis - 1)) ∧
    (init_iter2 it a y axis fast_axis).its = 0 ∧
    (init_iter2 it a y axis fast_axis).pa = a.data ∧
    (init_iter2 it a y axis fast_axis).py = y.data ∧
    (init_iter2 it a y axis fast_axis).i = it.i := by
  simpa [init_iter2, PyArray_NDIM, PyArray_BYTES, PyArray_SHAPE, PyArray_STRIDES] using
    init_iter2_steps_frame a.dimensions a.strides y.strides axis fast_axis
      ({ it with
          axis := axis, fast_axis := fast_axis, its := 0, nits := 1, ndim := a.nd
          pa := a.data, py := y.data
          astride := a.strides fast_axis
          length := a.dimensions fast_axis
          ystride := if fast_axis < axis then y.strides fast_axis
            else y.strides (fast_axis - 1) }, 0)
      a.nd.toNat

theorem init_iter2_nits (it : iter2) (a y : PyArrayObject) (axis fast_axis : Int) :
    (init_iter2 it a y axis fast_axis).nits
      = ∏ k ∈ (Finset.range a.nd.toNat).filter (fun k : Nat => (k : Int) ≠ fast_axis),
          a.dimensions (k : Int) := by
  simp [init_iter2, PyArray_NDIM, PyArray_BYTES, PyArray_SHAPE, PyArray_STRIDES,
    init_iter2_steps_nits]

theorem init_iter2_cells (it : iter2) (a y : PyArrayObject) (axis fast_axis : Int)
    (hax : 0 ≤ axis) (p : Int) (hp0 : 0 ≤ p) (hp : p < a.nd) :
    (init_iter2 it a y axis fast_axis).indices p = 0 ∧
    (init_iter2 it a y axis fast_axis).astrides p = a.strides p ∧
    (init_iter2 it a y axis fast_axis).shape p = a.dimensions p ∧
    (init_iter2 it a y axis fast_axis).ystrides p
      = (if p = axis then 0 else if p < axis then y.strides p else y.strides (p - 1)) := by
  simpa [init_iter2, PyArray_NDIM, PyArray_BYTES, PyArray_SHAPE, PyArray_STRIDES] using
    init_iter2_steps_cells a.dimensions a.strides y.strides axis fast_axis
      { it with
          axis := axis, fast_axis := fast_axis, its := 0, nits := 1, ndim := a.nd
          pa := a.data, py := y.data
          astride := a.strides fast_axis
          length := a.dimensions fast_axis
          ystride := if fast_axis < axis then y.strides fast_axis
            else y.strides (fast_axis - 1) }
      hax a.nd.toNat p hp0 (by omega)

/-! ## init_iter2 with its reads checked -/

theorem init_iter2_body_checked_eq (nd ynd : Int) (shape astrides ystrides : Int → Int)
    (axis fast_axis : Int) (i : Int) (s : iter2 × Int) (hi : 0 ≤ i ∧ i < nd)
    (hj : i ≠ axis → 0 ≤ s.2 ∧ s.2 < ynd) :
    init_iter2_body_checked nd ynd shape astrides ystrides axis fast_axis i s
      = some (init_iter2_body shape astrides ystrides axis fast_axis i s) := by
  have hr : ∀ f : Int → Int, rd nd f i = some (f i) := fun f => by simp [rd, hi]
  by_cases h : i = axis
  · subst h
    simp only [init_iter2_body_checked, init_iter2_body, hr, if_true, Option.bind_eq_bind,
      Option.some_bind, Option.pure_def]
    split_ifs <;> rfl
  · have hr2 : rd ynd ystrides s.2 = some (ystrides s.2) := by simp [rd, hj h]
    simp only [init_iter2_body_checked, init_iter2_body, hr, hr2, if_neg h, Option.bind_eq_bind,
      Option.some_bind, Option.pure_def]
    split_ifs <;> rfl

theorem init_iter2_steps_checked_eq (nd ynd : Int) (shape astrides ystrides : Int → Int)
    (axis fast_axis : Int) (it : iter2) (hax : 0 ≤ axis) (hax1 : axis < nd)
    (hy : ynd = nd - 1) (n : Nat) (hn : (n : Int) ≤ nd) :
    init_iter2_steps_checked nd ynd shape astrides ystrides axis fast_axis (it, 0) n
      = some (init_iter2_steps shape astrides ystrides axis fast_axis (it, 0) n) := by
  induction n with
  | zero => rfl
  | succ n ih =>
    have hj := init_iter2_steps_j shape astrides ystrides axis fast_axis it n
    simp only [init_iter2_steps_checked, init_iter2_steps]
    rw [ih (by push_cast at hn; omega)]
    simp only [Option.bind_eq_bind, Option.some_bind]
    apply init_iter2_body_checked_eq
    · push_cast at hn; omega
    · intro hne
      rw [hj]
      push_cast at hn
      split_ifs <;> omega

/-- Every read of init_iter2 falls inside its array when fast_axis is not both
equal to axis and 0: the checked run then returns what init_iter2 returns. -/
theorem init_iter2_checked_eq (it : iter2) (a y : PyArrayObject) (axis fast_axis : Int)
    (hax : 0 ≤ axis) (hax1 : axis < a.nd) (hf : 0 ≤ fast_axis) (hf1 : fast_axis < a.nd)
    (hy : y.nd = a.nd - 1) (hok : fast_axis < axis ∨ 0 < fast_axis) :
    init_iter2_checked it a y axis fast_axis = some (init_iter2 it a y axis fast_axis) := by
  have hr1 : rd a.nd a.strides fast_axis = some (a.strides fast_axis) := by simp [rd, hf, hf1]
  have hr2 : rd a.nd a.dimensions fast_axis = some (a.dimensions fast_axis) := by
    simp [rd, hf, hf1]
  have hsteps := fun it0 : iter2 =>
    init_iter2_steps_checked_eq a.nd y.nd a.dimensions a.strides y.strides axis fast_axis it0
      hax hax1 hy a.nd.toNat (by omega)
  simp only [init_iter2_checked, init_iter2, PyArray_NDIM, PyArray_BYTES, PyArray_SHAPE,
    PyArray_STRIDES, hr1, hr2, Option.bind_eq_bind, Option.some_bind, Option.pure_def]
  split_ifs with c
  · have hr3 : rd y.nd y.strides fast_axis = some (y.strides fast_axis) := by
      have : 0 ≤ fast_axis ∧ fast_axis < y.nd := by omega
      simp [rd, this]
    simp only [hr3, hsteps, Option.some_bind]
  · have hr3 : rd y.nd y.strides (fast_axis - 1) = some (y.strides (fast_axis - 1)) := by
      have : 0 ≤ fast_axis - 1 ∧ fast_axis - 1 < y.nd := by omega
      simp [rd, this]
    simp only [hr3, hsteps, Option.some_bind]

theorem init_iter2_checked_zero_zero (it : iter2) (a y : PyArrayObject) :
    init_iter2_checked it a y 0 0 = none := by
  have hr3 : rd y.nd y.strides (0 - 1) = none := by simp [rd]
  simp only [init_iter2_checked, PyArray_NDIM, PyArray_STRIDES, lt_self_iff_false, if_false, hr3,
    Option.bind_eq_bind, Option.none_bind, Option.bind_none]

/-! ## NEXT2: both pointers follow the indices -/

/-- More passes than it.i + 1 are never used: the loop has left by then. -/
theorem NEXT2_loop_fuel (fuel : Nat) (it : iter2) (h : (it.i + 1).toNat ≤ fuel) :
    NEXT2_loop fuel it = NEXT2_loop (it.i + 1).toNat it := by
  induction fuel generalizing it with
  | zero =>
    have : (it.i + 1).toNat = 0 := by omega
    rw [this]
  | succ fuel ih =>
    by_cases hi : it.i > -1
    · obtain ⟨m, hm⟩ : ∃ m : Nat, (it.i + 1).toNat = m + 1 := ⟨it.i.toNat, by omega⟩
      have hm2 : (it.i - 1 + 1).toNat = m := by omega
      rw [hm]
      simp only [NEXT2_loop, if_pos hi]
      split_ifs
      · rw [ih _ (by simp only; omega)]
        simp only [hm2]
      · rfl
      · rw [ih _ (by simp only; omega)]
        simp only [hm2]
      · rfl
      · rw [ih _ (by simp only; omega)]
        simp only [hm2]
    · have : (it.i + 1).toNat = 0 := by omega
      rw [this]
      simp [NEXT2_loop, hi]

theorem NEXT2_loop_inv (n : Nat) (fuel : Nat) (it : iter2) (h : it.i < (n : Int)) :
    NEXT2_keeps n it (NEXT2_loop fuel it) ∧ (NEXT2_loop fuel it).its = it.its := by
  induction fuel generalizing it with
  | zero => simp [NEXT2_loop, NEXT2_keeps]
  | succ fuel ih =>
    simp only [NEXT2_loop]
    by_cases hi : it.i > -1
    · have c : 0 ≤ it.i ∧ it.i < (n : Int) := ⟨by omega, h⟩
      rw [if_pos hi]
      by_cases hf : it.i = it.fast_axis
      · rw [if_pos hf]
        exact ih { it with i := it.i - 1 } (by simp only; omega)
      · rw [if_neg hf]
        have hf' : it.fast_axis ≠ it.i := fun e => hf e.symm
        by_cases ha : it.i = it.axis
        · have hm : maskAt it.axis it.ystrides it.i = 0 := by simp [maskAt, ha]
          rw [if_pos ha]
          split_ifs
          · refine ⟨⟨?_, ?_, ?_, rfl, rfl, rfl, rfl, rfl, rfl, rfl, rfl, rfl, rfl⟩, rfl⟩
            · simp only [iter2.slack_a, sum_update_mul, if_pos c]
              ring
            · simp only [iter2.slack_y, sum_update_mul, if_pos c, hm]
              ring
            · simp only [Function.update_noteq hf']
          · obtain ⟨⟨k1, k2, k3, k4⟩, k5⟩ := ih { it with
                  pa := it.pa - it.indices it.i * it.astrides it.i
                  indices := Function.update it.indices it.i 0
                  i := it.i - 1 } (by simp only; omega)
            refine ⟨⟨?_, ?_, ?_, k4⟩, k5⟩
            · rw [k1]
              simp only [iter2.slack_a, sum_update_mul, if_pos c]
              ring
            · rw [k2]
              simp only [iter2.slack_y, sum_update_mul, if_pos c, hm]
              ring
            · rw [k3]
              simp only [Function.update_noteq hf']
        · have hm : maskAt it.axis it.ystrides it.i = it.ystrides it.i := by simp [maskAt, ha]
          rw [if_neg ha]
          split_ifs
          · refine ⟨⟨?_, ?_, ?_, rfl, rfl, rfl, rfl, rfl, rfl, rfl, rfl, rfl, rfl⟩, rfl⟩
            · simp only [iter2.slack_a, sum_update_mul, if_pos c]
              ring
            · simp only [iter2.slack_y, sum_update_mul, if_pos c, hm]
              ring
            · simp only [Function.update_noteq hf']
          · obtain ⟨⟨k1, k2, k3, k4⟩, k5⟩ := ih { it with
                  pa := it.pa - it.indices it.i * it.astrides it.i
                  py := it.py - it.indices it.i * it.ystrides it.i
                  indices := Function.update it.indices it.i 0
                  i := it.i - 1 } (by simp only; omega)
            refine ⟨⟨?_, ?_, ?_, k4⟩, k5⟩
            · rw [k1]
              simp only [iter2.slack_a, sum_update_mul, if_pos c]
              ring
            · rw [k2]
              simp only [iter2.slack_y, sum_update_mul, if_pos c, hm]
              ring
            · rw [k3]
              simp only [Function.update_noteq hf']
    · simp [hi, NEXT2_keeps]

theorem NEXT2_inv (it : iter2) :
    NEXT2_keeps it.ndim.toNat it (NEXT2 it) ∧ (NEXT2 it).its = it.its + 1 := by
  have h := NEXT2_loop_inv it.ndim.toNat it.ndim.toNat { it with i := it.ndim - 1 }
    (by simp only; omega)
  obtain ⟨⟨h1, h2, h3, h4, h5, h6, h7, h8, h9, h10, h11, h12, h13⟩, h14⟩ := h
  refine ⟨⟨?_, ?_, h3, h4, h5, h6, h7, h8, h9, h10, h11, h12, h13⟩, ?_⟩
  · simpa [NEXT2, iter2.slack_a] using h1
  · simpa [NEXT2, iter2.slack_y] using h2
  · simp [NEXT2, h14]

theorem NEXT2_iterate_inv (it : iter2) (n : Nat) :
    NEXT2_keeps it.ndim.toNat it (NEXT2^[n] it) ∧ (NEXT2^[n] it).its = it.its + n := by
  induction n with
  | zero => simp [NEXT2_keeps]
  | succ n ih =>
    rw [Function.iterate_succ_apply']
    obtain ⟨⟨h1, h2, h3, h4, h5, h6, h7, h8, h9, h10, h11, h12, h13⟩, h14⟩ := ih
    obtain ⟨⟨g1, g2, g3, g4, g5, g6, g7, g8, g9, g10, g11, g12, g13⟩, g14⟩ :=
      NEXT2_inv (NEXT2^[n] it)
    rw [h7] at g1 g2
    rw [h9] at g3
    refine ⟨⟨g1.trans h1, g2.trans h2, g3.trans h3, g4.trans h4, g5.trans h5, g6.trans h6,
      g7.trans h7, g8.trans h8, g9.trans h9, g10.trans h10, g11.trans h11, g12.trans h12,
      g13.trans h13⟩, ?_⟩
    rw [g14, h14]
    push_cast
    ring

/-! ## The run of NEXT2 from a freshly built iter2 -/

theorem NEXT2_run_frame (it : iter2) (a y : PyArrayObject) (axis fast_axis : Int)
    (h0 : 0 ≤ axis) (hf0 : 0 ≤ fast_axis) (hf1 : fast_axis < a.nd) (n : Nat) :
    (NEXT2^[n] (init_iter2 it a y axis fast_axis)).indices fast_axis = 0 ∧
    (NEXT2^[n] (init_iter2 it a y axis fast_axis)).astrides
      = (init_iter2 it a y axis fast_axis).astrides ∧
    (NEXT2^[n] (init_iter2 it a y axis fast_axis)).ystrides
      = (init_iter2 it a y axis fast_axis).ystrides ∧
    (NEXT2^[n] (init_iter2 it a y axis fast_axis)).axis = axis := by
  obtain ⟨⟨-, -, k3, k4, k5, -, -, k8, -⟩, -⟩ :=
    NEXT2_iterate_inv (init_iter2 it a y axis fast_axis) n
  obtain ⟨-, f2, f3, -⟩ := init_iter2_frame it a y axis fast_axis
  rw [f3] at k3
  exact ⟨k3.trans (init_iter2_cells it a y axis fast_axis h0 fast_axis hf0 hf1).1, k4, k5,
    k8.trans f2⟩

theorem NEXT2_run_pa (it : iter2) (a y : PyArrayObject) (axis fast_axis : Int)
    (h0 : 0 ≤ axis) (hf0 : 0 ≤ fast_axis) (hf1 : fast_axis < a.nd) (n : Nat) :
    (NEXT2^[n] (init_iter2 it a y axis fast_axis)).pa
      = a.data + ∑ d ∈ (Finset.range a.nd.toNat).filter (fun d : Nat => (d : Int) ≠ fast_axis),
          (NEXT2^[n] (init_iter2 it a y axis fast_axis)).indices (d : Int)
            * a.strides (d : Int) := by
  obtain ⟨⟨k1, -⟩, -⟩ := NEXT2_iterate_inv (init_iter2 it a y axis fast_axis) n
  obtain ⟨e1, e2, -⟩ := NEXT2_run_frame it a y axis fast_axis h0 hf0 hf1 n
  obtain ⟨f1, -, -, -, -, -, -, f8, -⟩ := init_iter2_frame it a y axis fast_axis
  have hz : ∀ d ∈ Finset.range a.nd.toNat,
      (init_iter2 it a y axis fast_axis).indices (d : Int)
        * (init_iter2 it a y axis fast_axis).astrides (d : Int) = 0 := by
    intro d hd
    have hd2 : d < a.nd.toNat := Finset.mem_range.mp hd
    rw [(init_iter2_cells it a y axis fast_axis h0 (d : Int) (by omega) (by omega)).1]
    ring
  rw [f1] at k1
  simp only [iter2.slack_a, e2, Finset.sum_eq_zero hz, f8] at k1
  rw [Finset.sum_filter]
  have hs : ∑ d ∈ Finset.range a.nd.toNat,
      (NEXT2^[n] (init_iter2 it a y axis fast_axis)).indices (d : Int)
        * (init_iter2 it a y axis fast_axis).astrides (d : Int)
      = ∑ d ∈ Finset.range a.nd.toNat, if (d : Int) ≠ fast_axis then
          (NEXT2^[n] (init_iter2 it a y axis fast_axis)).indices (d : Int) * a.strides (d : Int)
        else 0 := by
    refine Finset.sum_congr rfl (fun d hd => ?_)
    have hd2 : d < a.nd.toNat := Finset.mem_range.mp hd
    by_cases c : (d : Int) = fast_axis
    · rw [if_neg (not_not.mpr c), c, e1]
      ring
    · rw [if_pos c,
        (init_iter2_cells it a y axis fast_axis h0 (d : Int) (by omega) (by omega)).2.1]
  rw [← hs]
  linarith

theorem NEXT2_run_py (it : iter2) (a y : PyArrayObject) (axis fast_axis : Int)
    (h0 : 0 ≤ axis) (hf0 : 0 ≤ fast_axis) (hf1 : fast_axis < a.nd) (n : Nat) :
    (NEXT2^[n] (init_iter2 it a y axis fast_axis)).py
      = y.data + ∑ d ∈ (Finset.range a.nd.toNat).filter
            (fun d : Nat => (d : Int) ≠ axis ∧ (d : Int) ≠ fast_axis),
          (NEXT2^[n] (init_iter2 it a y axis fast_axis)).indices (d : Int)
            * (NEXT2^[n] (init_iter2 it a y axis fast_axis)).ystrides (d : Int) := by
  obtain ⟨⟨-, k2, -⟩, -⟩ := NEXT2_iterate_inv (init_iter2 it a y axis fast_axis) n
  obtain ⟨e1, -, e3, e4⟩ := NEXT2_run_frame it a y axis fast_axis h0 hf0 hf1 n
  obtain ⟨f1, f2, -, -, -, -, -, -, f9, -⟩ := init_iter2_frame it a y axis fast_axis
  have hz : ∀ d ∈ Finset.range a.nd.toNat,
      (init_iter2 it a y axis fast_axis).indices (d : Int)
        * maskAt axis (init_iter2 it a y axis fast_axis).ystrides (d : Int) = 0 := by
    intro d hd
    have hd2 : d < a.nd.toNat := Finset.mem_range.mp hd
    rw [(init_iter2_cells it a y axis fast_axis h0 (d : Int) (by omega) (by omega)).1]
    ring
  rw [f1] at k2
  simp only [iter2.slack_y, e3, e4, f2, Finset.sum_eq_zero hz, f9] at k2
  rw [Finset.sum_filter, e3]
  have hs : ∑ d ∈ Finset.range a.nd.toNat,
      (NEXT2^[n] (init_iter2 it a y axis fast_axis)).indices (d : Int)
        * maskAt axis (init_iter2 it a y axis fast_axis).ystrides (d : Int)
      = ∑ d ∈ Finset.range a.nd.toNat, if (d : Int) ≠ axis ∧ (d : Int) ≠ fast_axis then
          (NEXT2^[n] (init_iter2 it a y axis fast_axis)).indices (d : Int)
            * (init_iter2 it a y axis fast_axis).ystrides (d : Int)
        else 0 := by
    refine Finset.sum_congr rfl (fun d _ => ?_)
    by_cases c : (d : Int) = axis
    · rw [if_neg (by simp [c]), maskAt, if_pos c]
      ring
    · by_cases c2 : (d : Int) = fast_axis
      · rw [if_neg (by simp [c2]), c2, e1]
        ring
      · rw [if_pos ⟨c, c2⟩, maskAt, if_neg c]
  rw [← hs]
  linarith

/-! ## The properties of the single iterator -/

/-- Claim C1: for a view of rank at least 1 and an axis inside it, after
init_iter and any number n of NEXT (also beyond nits), pa is the base of the
view plus the sum over the outer positions d of indices[d] * astrides[d];
astrides holds the strides of the view with axis left out. -/
theorem axis_iterator_pointer_round_trip (it : iter) (a : PyArrayObject) (axis : Int)
    (h0 : 0 ≤ axis) (h1 : axis < a.nd) (n : Nat) :
    (NEXT^[n] (init_iter it a axis)).pa
      = a.data + ∑ d ∈ Finset.range (a.nd - 1).toNat,
          (NEXT^[n] (init_iter it a axis)).indices (d : Int)
            * (NEXT^[n] (init_iter it a axis)).astrides (d : Int) ∧
    ∀ d : Int, 0 ≤ d → d < a.nd - 1 →
      (NEXT^[n] (init_iter it a axis)).astrides d
        = a.strides (if d < axis then d else d + 1) := by
  refine ⟨NEXT_iterate_pa it a axis h0 h1 n, fun d hd0 hd => ?_⟩
  rw [(NEXT_iterate_inv (init_iter it a axis) n).2.1]
  exact (init_iter_outer it a axis h0 h1 d hd0 hd).2.1

theorem axis_iterator_pointer_round_trip_witness :
    (NEXT^[6] (init_iter iter.zero view234 1)).pa
      = view234.data + ∑ d ∈ Finset.range (view234.nd - 1).toNat,
          (NEXT^[6] (init_iter iter.zero view234 1)).indices (d : Int)
            * (NEXT^[6] (init_iter iter.zero view234 1)).astrides (d : Int) ∧
    ∀ d : Int, 0 ≤ d → d < view234.nd - 1 →
      (NEXT^[6] (init_iter iter.zero view234 1)).astrides d
        = view234.strides (if d < 1 then d else d + 1) :=
  axis_iterator_pointer_round_trip iter.zero view234 1 (by decide) (by decide) 6

/-- Claim C2: when every outer length is at least 1, the indices after k < nits
NEXT are the mixed-radix digits of k over the outer shape (last outer position
least significant); so the nits states are pairwise distinct, every outer
coordinate is the indices of some k < nits, and a smaller k has the
lexicographically smaller indices. -/
theorem axis_iterator_visits_in_mixed_radix_order (it : iter) (a : PyArrayObject) (axis : Int)
    (h0 : 0 ≤ axis) (h1 : axis < a.nd)
    (hlen : ∀ j : Int, 0 ≤ j → j < a.nd → j ≠ axis → 1 ≤ a.dimensions j) :
    (∀ k : Nat, (k : Int) < (init_iter it a axis).nits →
      ∀ j : Int, 0 ≤ j → j < a.nd - 1 →
        (NEXT^[k] (init_iter it a axis)).indices j
          = mixedRadix (outerShape a axis) (a.nd - 1).toNat (k : Int) j) ∧
    (∀ k k' : Nat, (k : Int) < (init_iter it a axis).nits →
      (k' : Int) < (init_iter it a axis).nits → k ≠ k' →
        ∃ j : Int, 0 ≤ j ∧ j < a.nd - 1 ∧
          (NEXT^[k] (init_iter it a axis)).indices j
            ≠ (NEXT^[k'] (init_iter it a axis)).indices j) ∧
    (∀ c : Int → Int,
      (∀ j : Int, 0 ≤ j → j < a.nd - 1 → 0 ≤ c j ∧ c j < outerShape a axis j) →
        ∃! k : Nat, (k : Int) < (init_iter it a axis).nits ∧
          ∀ j : Int, 0 ≤ j → j < a.nd - 1 →
            (NEXT^[k] (init_iter it a axis)).indices j = c j) ∧
    (∀ k k' : Nat, k < k' → (k' : Int) < (init_iter it a axis).nits →
      ∃ d : Int, 0 ≤ d ∧ d < a.nd - 1 ∧
        (∀ j : Int, 0 ≤ j → j < d →
          (NEXT^[k] (init_iter it a axis)).indices j
            = (NEXT^[k'] (init_iter it a axis)).indices j) ∧
        (NEXT^[k] (init_iter it a axis)).indices d
          < (NEXT^[k'] (init_iter it a axis)).indices d) :=
  ⟨fun k hk j hj0 hj => NEXT_run_digits it a axis h0 h1 hlen k hk j hj0 hj,
   fun k k' hk hk' hne => NEXT_run_distinct it a axis h0 h1 hlen k k' hk hk' hne,
   fun c hc => NEXT_run_cover_unique it a axis h0 h1 hlen c hc,
   fun k k' hlt hk' => NEXT_run_lex it a axis h0 h1 hlen k k' hlt hk'⟩

theorem view234_lengths_pos (axis : Int) :
    ∀ j : Int, 0 ≤ j → j < view234.nd → j ≠ axis → 1 ≤ view234.dimensions j := by
  intro j hj0 hj _
  have e : view234.nd = 3 := by decide
  rw [e] at hj
  interval_cases j <;> decide

theorem axis_iterator_visits_in_mixed_radix_order_witness :
    (NEXT^[5] (init_iter iter.zero view234 1)).indices 0
        = mixedRadix (outerShape view234 1) (view234.nd - 1).toNat 5 0 ∧
    (NEXT^[5] (init_iter iter.zero view234 1)).indices 1
        = mixedRadix (outerShape view234 1) (view234.nd - 1).toNat 5 1 ∧
    mixedRadix (outerShape view234 1) (view234.nd - 1).toNat 5 0 = 1 ∧
    mixedRadix (outerShape view234 1) (view234.nd - 1).toNat 5 1 = 1 :=
  ⟨(axis_iterator_visits_in_mixed_radix_order iter.zero view234 1 (by decide) (by decide)
      (view234_lengths_pos 1)).1 5 (by decide) 0 (by decide) (by decide),
   (axis_iterator_visits_in_mixed_radix_order iter.zero view234 1 (by decide) (by decide)
      (view234_lengths_pos 1)).1 5 (by decide) 1 (by decide) (by decide),
   by decide, by decide⟩

/-- Claim C3: for a view of rank R and an axis in [0, R), init_iter sets nits
to the product of the lengths at the positions other than axis; that is 1 when
R = 1 and 0 when some length other than the one at axis is 0. -/
theorem axis_iterator_total (it : iter) (a : PyArrayObject) (axis : Int)
    (h0 : 0 ≤ axis) (h1 : axis < a.nd) :
    (init_iter it a axis).nits
      = ∏ k ∈ (Finset.range a.nd.toNat).filter (fun k : Nat => (k : Int) ≠ axis),
          a.dimensions (k : Int) ∧
    (a.nd = 1 → (init_iter it a axis).nits = 1) ∧
    ((∃ k : Int, 0 ≤ k ∧ k < a.nd ∧ k ≠ axis ∧ a.dimensions k = 0) →
      (init_iter it a axis).nits = 0) := by
  refine ⟨init_iter_nits it a axis, fun hR => ?_, ?_⟩
  · have hax : axis = 0 := by omega
    have he : (Finset.range (1 : Int).toNat).filter (fun k : Nat => (k : Int) ≠ 0) = ∅ := by
      decide
    rw [init_iter_nits, hR, hax, he, Finset.prod_empty]
  · rintro ⟨k, hk0, hk1, hk2, hk3⟩
    rw [init_iter_nits]
    refine Finset.prod_eq_zero (i := k.toNat) ?_ ?_
    · rw [Finset.mem_filter, Finset.mem_range, Int.toNat_of_nonneg hk0]
      exact ⟨by omega, hk2⟩
    · rw [Int.toNat_of_nonneg hk0]
      exact hk3

theorem axis_iterator_total_witness :
    (init_iter iter.zero view234 1).nits
      = ∏ k ∈ (Finset.range view234.nd.toNat).filter (fun k : Nat => (k : Int) ≠ 1),
          view234.dimensions (k : Int) ∧
    (init_iter iter.zero view234 1).nits = 8 :=
  ⟨(axis_iterator_total iter.zero view234 1 (by decide) (by decide)).1, by decide⟩

/-- Claim C5: for a view of rank R and an axis in [0, R), init_iter sets
length and astride to the length and stride at axis, copies the other
lengths and strides in their order to positions 0 .. R - 2 of shape and
astrides (position j of the iterator holds position j of the view when
j < axis and position j + 1 otherwise), zeroes those indices, and sets pa to
the base, its to 0 and ndim_m2 to R - 2. -/
theorem axis_iterator_construction (it : iter) (a : PyArrayObject) (axis : Int)
    (h0 : 0 ≤ axis) (h1 : axis < a.nd) :
    (init_iter it a axis).length = a.dimensions axis ∧
    (init_iter it a axis).astride = a.strides axis ∧
    (∀ j : Int, 0 ≤ j → j < a.nd - 1 →
      (init_iter it a axis).shape j = a.dimensions (if j < axis then j else j + 1) ∧
      (init_iter it a axis).astrides j = a.strides (if j < axis then j else j + 1) ∧
      (init_iter it a axis).indices j = 0) ∧
    (init_iter it a axis).pa = a.data ∧
    (init_iter it a axis).its = 0 ∧
    (init_iter it a axis).ndim_m2 = a.nd - 2 := by
  obtain ⟨f1, f2, f3, -⟩ := init_iter_frame it a axis
  obtain ⟨g1, g2⟩ := init_iter_axis it a axis h0 h1
  exact ⟨g2, g1, fun j hj0 hj => init_iter_outer it a axis h0 h1 j hj0 hj, f3, f2, f1⟩

theorem axis_iterator_construction_witness :
    (init_iter iter.zero view234 1).length = 3 ∧
    (init_iter iter.zero view234 1).astride = 32 ∧
    (init_iter iter.zero view234 1).shape 1 = view234.dimensions 2 ∧
    (init_iter iter.zero view234 1).astrides 0 = view234.strides 0 ∧
    (init_iter iter.zero view234 1).pa = 1000 :=
  have h := axis_iterator_construction iter.zero view234 1 (by decide) (by decide)
  ⟨h.1, h.2.1, (h.2.2.1 1 (by decide) (by decide)).1, (h.2.2.1 0 (by decide) (by decide)).2.1,
    h.2.2.2.1⟩

/-! ## The properties of the paired iterator -/

/-- Claim C4: for a source of rank R and axis, fast_axis in [0, R), init_iter2
sets nits to the product of the source lengths at the positions other than
fast_axis, whatever axis is; so the length at axis divides nits when axis
differs from fast_axis. -/
theorem paired_iterator_total (it : iter2) (a y : PyArrayObject) (axis fast_axis : Int)
    (h0 : 0 ≤ axis) (h1 : axis < a.nd) :
    (init_iter2 it a y axis fast_axis).nits
      = ∏ k ∈ (Finset.range a.nd.toNat).filter (fun k : Nat => (k : Int) ≠ fast_axis),
          a.dimensions (k : Int) ∧
    (∀ axis' : Int, (init_iter2 it a y axis' fast_axis).nits
      = (init_iter2 it a y axis fast_axis).nits) ∧
    (axis ≠ fast_axis → a.dimensions axis ∣ (init_iter2 it a y axis fast_axis).nits) := by
  refine ⟨init_iter2_nits it a y axis fast_axis, fun axis' => ?_, fun hne => ?_⟩
  · rw [init_iter2_nits, init_iter2_nits]
  · rw [init_iter2_nits]
    have hm : axis.toNat ∈ (Finset.range a.nd.toNat).filter
        (fun k : Nat => (k : Int) ≠ fast_axis) := by
      rw [Finset.mem_filter, Finset.mem_range, Int.toNat_of_nonneg h0]
      exact ⟨by omega, hne⟩
    have hd := Finset.dvd_prod_of_mem (fun k : Nat => a.dimensions (k : Int)) hm
    simpa [Int.toNat_of_nonneg h0] using hd

theorem paired_iterator_total_witness :
    (init_iter2 iter2.zero view234 view24 1 2).nits
      = ∏ k ∈ (Finset.range view234.nd.toNat).filter (fun k : Nat => (k : Int) ≠ 2),
          view234.dimensions (k : Int) ∧
    (init_iter2 iter2.zero view234 view24 1 2).nits = 6 ∧
    view234.dimensions 1 ∣ (init_iter2 iter2.zero view234 view24 1 2).nits :=
  have h := paired_iterator_total iter2.zero view234 view24 1 2 (by decide) (by decide)
  ⟨h.1, by decide, h.2.2 (by decide)⟩

/-- Claim C6: for a source of rank R and axis in [0, R), init_iter2 sets
ystrides[axis] to 0, ystrides[i] to the target stride at i for i < axis and
at i - 1 for axis < i < R, and for every i in [0, R) copies the source stride
and length at i to astrides[i] and shape[i] and zeroes indices[i]. -/
theorem paired_iterator_aligned_target_strides (it : iter2) (a y : PyArrayObject)
    (axis fast_axis : Int) (h0 : 0 ≤ axis) (h1 : axis < a.nd) :
    (init_iter2 it a y axis fast_axis).ystrides axis = 0 ∧
    (∀ i : Int, 0 ≤ i → i < axis →
      (init_iter2 it a y axis fast_axis).ystrides i = y.strides i) ∧
    (∀ i : Int, axis < i → i < a.nd →
      (init_iter2 it a y axis fast_axis).ystrides i = y.strides (i - 1)) ∧
    (∀ i : Int, 0 ≤ i → i < a.nd →
      (init_iter2 it a y axis fast_axis).astrides i = a.strides i ∧
      (init_iter2 it a y axis fast_axis).shape i = a.dimensions i ∧
      (init_iter2 it a y axis fast_axis).indices i = 0) := by
  refine ⟨?_, fun i hi0 hi => ?_, fun i hi hi1 => ?_, fun i hi0 hi1 => ?_⟩
  · rw [(init_iter2_cells it a y axis fast_axis h0 axis h0 h1).2.2.2, if_pos rfl]
  · rw [(init_iter2_cells it a y axis fast_axis h0 i hi0 (by omega)).2.2.2,
      if_neg (by omega), if_pos hi]
  · rw [(init_iter2_cells it a y axis fast_axis h0 i (by omega) hi1).2.2.2,
      if_neg (by omega), if_neg (by omega)]
  · obtain ⟨c1, c2, c3, -⟩ := init_iter2_cells it a y axis fast_axis h0 i hi0 hi1
    exact ⟨c2, c3, c1⟩

theorem paired_iterator_aligned_target_strides_witness :
    (init_iter2 iter2.zero view234 view24 1 2).ystrides 1 = 0 ∧
    (init_iter2 iter2.zero view234 view24 1 2).ystrides 0 = view24.strides 0 ∧
    (init_iter2 iter2.zero view234 view24 1 2).ystrides 2 = view24.strides (2 - 1) ∧
    (init_iter2 iter2.zero view234 view24 1 2).astrides 2 = view234.strides 2 :=
  have h := paired_iterator_aligned_target_strides iter2.zero view234 view24 1 2 (by decide)
    (by decide)
  ⟨h.1, h.2.1 0 (by decide) (by decide), h.2.2.1 2 (by decide) (by decide),
    (h.2.2.2 2 (by decide) (by decide)).1⟩

/-- Claim C7: for axis and fast_axis in [0, R) with fast_axis different from
axis, init_iter2 sets ystride to the target stride at fast_axis when
fast_axis < axis and at fast_axis - 1 when fast_axis > axis, which is the
aligned entry ystrides[fast_axis] in both cases; it sets astride and length
to the source stride and length at fast_axis. -/
theorem paired_iterator_fast_axis_stride (it : iter2) (a y : PyArrayObject)
    (axis fast_axis : Int) (h0 : 0 ≤ axis) (hf0 : 0 ≤ fast_axis) (hf1 : fast_axis < a.nd)
    (hne : fast_axis ≠ axis) :
    (fast_axis < axis →
      (init_iter2 it a y axis fast_axis).ystride = y.strides fast_axis) ∧
    (axis < fast_axis →
      (init_iter2 it a y axis fast_axis).ystride = y.strides (fast_axis - 1)) ∧
    (init_iter2 it a y axis fast_axis).ystride
      = (init_iter2 it a y axis fast_axis).ystrides fast_axis ∧
    (init_iter2 it a y axis fast_axis).astride = a.strides fast_axis ∧
    (init_iter2 it a y axis fast_axis).length = a.dimensions fast_axis := by
  obtain ⟨-, -, -, f4, f5, f6, -⟩ := init_iter2_frame it a y axis fast_axis
  have hc := (init_iter2_cells it a y axis fast_axis h0 fast_axis hf0 hf1).2.2.2
  rw [if_neg hne] at hc
  refine ⟨fun hlt => ?_, fun hgt => ?_, by rw [f6, hc], f5, f4⟩
  · rw [f6, if_pos hlt]
  · rw [f6, if_neg (by omega)]

theorem paired_iterator_fast_axis_stride_witness :
    (init_iter2 iter2.zero view234 view24 1 2).ystride = view24.strides (2 - 1) ∧
    (init_iter2 iter2.zero view234 view24 1 2).ystride
      = (init_iter2 iter2.zero view234 view24 1 2).ystrides 2 ∧
    (init_iter2 iter2.zero view234 view24 1 2).astride = view234.strides 2 ∧
    (init_iter2 iter2.zero view234 view24 1 2).length = view234.dimensions 2 :=
  have h := paired_iterator_fast_axis_stride iter2.zero view234 view24 1 2 (by decide)
    (by decide) (by decide) (by decide)
  ⟨h.2.1 (by decide), h.2.2.1, h.2.2.2.1, h.2.2.2.2⟩

/-- Claim C8 fails on the code: with axis = 0 and fast_axis = 0 the conditional
of lines 121-122 takes its second branch and reads ystrides[fast_axis - 1],
cell -1 of the target strides, so the run of init_iter2 with its reads checked
stops there, whatever the source and the target are. -/
theorem paired_iterator_reads_target_stride_before_cell_zero (it : iter2)
    (a y : PyArrayObject) :
    init_iter2_checked it a y 0 0 = none ∧
    rd y.nd y.strides ((0 : Int) - 1) = none :=
  ⟨init_iter2_checked_zero_zero it a y, by simp [rd]⟩

/-- Claim C9: for axis >= 0 and fast_axis in [0, R), after init_iter2 and any
number n of NEXT2, indices[fast_axis] is 0 and pa is the source base plus the
sum over the positions d other than fast_axis of indices[d] * the source
stride at d. -/
theorem paired_iterator_source_pointer_round_trip (it : iter2) (a y : PyArrayObject)
    (axis fast_axis : Int) (h0 : 0 ≤ axis) (hf0 : 0 ≤ fast_axis) (hf1 : fast_axis < a.nd)
    (n : Nat) :
    (NEXT2^[n] (init_iter2 it a y axis fast_axis)).indices fast_axis = 0 ∧
    (NEXT2^[n] (init_iter2 it a y axis fast_axis)).pa
      = a.data + ∑ d ∈ (Finset.range a.nd.toNat).filter (fun d : Nat => (d : Int) ≠ fast_axis),
          (NEXT2^[n] (init_iter2 it a y axis fast_axis)).indices (d : Int)
            * a.strides (d : Int) :=
  ⟨(NEXT2_run_frame it a y axis fast_axis h0 hf0 hf1 n).1,
    NEXT2_run_pa it a y axis fast_axis h0 hf0 hf1 n⟩

theorem paired_iterator_source_pointer_round_trip_witness :
    (NEXT2^[7] (init_iter2 iter2.zero view234 view24 1 2)).indices 2 = 0 ∧
    (NEXT2^[7] (init_iter2 iter2.zero view234 view24 1 2)).pa
      = view234.data
        + ∑ d ∈ (Finset.range view234.nd.toNat).filter (fun d : Nat => (d : Int) ≠ 2),
          (NEXT2^[7] (init_iter2 iter2.zero view234 view24 1 2)).indices (d : Int)
            * view234.strides (d : Int) :=
  paired_iterator_source_pointer_round_trip iter2.zero view234 view24 1 2 (by decide)
    (by decide) (by decide) 7

/-- Claim C10: for axis >= 0 and fast_axis in [0, R), after init_iter2 and any
number n of NEXT2, py is the target base plus the sum over the positions d
other than axis and fast_axis of indices[d] * ystrides[d]; so two reachable
states whose indices agree at every position other than axis have the same
py. -/
theorem paired_iterator_target_pointer_ignores_axis (it : iter2) (a y : PyArrayObject)
    (axis fast_axis : Int) (h0 : 0 ≤ axis) (hf0 : 0 ≤ fast_axis) (hf1 : fast_axis < a.nd) :
    (∀ n : Nat, (NEXT2^[n] (init_iter2 it a y axis fast_axis)).py
      = y.data + ∑ d ∈ (Finset.range a.nd.toNat).filter
            (fun d : Nat => (d : Int) ≠ axis ∧ (d : Int) ≠ fast_axis),
          (NEXT2^[n] (init_iter2 it a y axis fast_axis)).indices (d : Int)
            * (NEXT2^[n] (init_iter2 it a y axis fast_axis)).ystrides (d : Int)) ∧
    (∀ n n' : Nat,
      (∀ d : Int, 0 ≤ d → d < a.nd → d ≠ axis →
        (NEXT2^[n] (init_iter2 it a y axis fast_axis)).indices d
          = (NEXT2^[n'] (init_iter2 it a y axis fast_axis)).indices d) →
      (NEXT2^[n] (init_iter2 it a y axis fast_axis)).py
        = (NEXT2^[n'] (init_iter2 it a y axis fast_axis)).py) := by
  refine ⟨fun n => NEXT2_run_py it a y axis fast_axis h0 hf0 hf1 n, fun n n' hagree => ?_⟩
  rw [NEXT2_run_py it a y axis fast_axis h0 hf0 hf1 n,
    NEXT2_run_py it a y axis fast_axis h0 hf0 hf1 n',
    (NEXT2_run_frame it a y axis fast_axis h0 hf0 hf1 n).2.2.1,
    (NEXT2_run_frame it a y axis fast_axis h0 hf0 hf1 n').2.2.1]
  congr 1
  refine Finset.sum_congr rfl (fun d hd => ?_)
  rw [Finset.mem_filter, Finset.mem_range] at hd
  rw [hagree (d : Int) (by omega) (by omega) hd.2.1]

theorem paired_iterator_target_pointer_ignores_axis_witness :
    (NEXT2^[1] (init_iter2 iter2.zero view234 view24 1 2)).py
      = view24.data
        + ∑ d ∈ (Finset.range view234.nd.toNat).filter
            (fun d : Nat => (d : Int) ≠ 1 ∧ (d : Int) ≠ 2),
          (NEXT2^[1] (init_iter2 iter2.zero view234 view24 1 2)).indices (d : Int)
            * (NEXT2^[1] (init_iter2 iter2.zero view234 view24 1 2)).ystrides (d : Int) ∧
    (NEXT2^[1] (init_iter2 iter2.zero view234 view24 1 2)).py = 5000 ∧
    (NEXT2^[3] (init_iter2 iter2.zero view234 view24 1 2)).py = 5032 :=
  ⟨(paired_iterator_target_pointer_ignores_axis iter2.zero view234 view24 1 2 (by decide)
      (by decide) (by decide)).1 1, by decide, by decide⟩

/-! ## NEXT2 carries NEXT: the paired loop skipping F and the single loop -/

theorem unskip_eq_iff (F p q : Int) : unskip F p = unskip F q ↔ p = q := by
  unfold unskip
  split_ifs <;> omega

theorem sim_update (F : Int) (N : Nat) (it : iter) (it2 : iter2) (q : Int) (v pa' : Int)
    (i1 i2 : Int) (py' : Int) (h : Sim F N it it2) :
    Sim F N
      { it with pa := it.pa + pa', indices := Function.update it.indices q v, i := i1 }
      { it2 with
          pa := it2.pa + pa', py := py'
          indices := Function.update it2.indices (unskip F q) v, i := i2 } := by
  obtain ⟨h1, h2, h3⟩ := h
  refine ⟨h1, by simp only [h2], fun p hp0 hp => ?_⟩
  obtain ⟨g1, g2, g3⟩ := h3 p hp0 hp
  refine ⟨?_, g2, g3⟩
  by_cases e : p = q
  · subst e
    simp only [Function.update_same]
  · have e2 : unskip F p ≠ unskip F q := fun c => e ((unskip_eq_iff F p q).mp c)
    simp only [Function.update_noteq e, Function.update_noteq e2, g1]

theorem sim_loop (F : Int) (hF : 0 ≤ F) (N : Nat) (hFN : F ≤ (N : Int)) (m : Nat) :
    ∀ (it : iter) (it2 : iter2) (f f2 : Nat), it2.i = (m : Int) - 1 →
      it.i = (if F < (m : Int) then (m : Int) - 2 else (m : Int) - 1) →
      (m : Int) ≤ (N : Int) + 1 → (it.i + 1).toNat ≤ f → m ≤ f2 → Sim F N it it2 →
      Sim F N (NEXT_loop f it) (NEXT2_loop f2 it2) := by
  induction m with
  | zero =>
    intro it it2 f f2 hi2 hi _ _ _ h
    have hi' : it.i = -1 := by
      rw [hi, if_neg (by push_cast; omega)]
      simp
    have e1 : NEXT_loop f it = it := by
      cases f with
      | zero => rfl
      | succ f => simp [NEXT_loop, hi']
    have e2 : NEXT2_loop f2 it2 = it2 := by
      have : it2.i = -1 := by rw [hi2]; simp
      cases f2 with
      | zero => rfl
      | succ f2 => simp [NEXT2_loop, this]
    rw [e1, e2]
    exact h
  | succ m ih =>
    intro it it2 f f2 hi2 hi hm hf hf2 h
    have hi2' : it2.i = (m : Int) := by rw [hi2]; push_cast; ring
    obtain ⟨g2, rfl⟩ : ∃ g2, f2 = g2 + 1 := ⟨f2 - 1, by omega⟩
    have hfa : it2.fast_axis = F := h.1
    have hpos2 : it2.i > -1 := by omega
    simp only [NEXT2_loop, if_pos hpos2]
    by_cases hskip : (m : Int) = F
    · rw [if_pos (by rw [hi2', hfa]; exact hskip)]
      refine ih it { it2 with i := it2.i - 1 } f g2 (by simp only; omega) ?_ (by omega) hf
        (by omega) ⟨h.1, h.2.1, h.2.2⟩
      rw [hi, if_pos (by push_cast; omega), if_neg (by omega)]
      push_cast
      ring
    · rw [if_neg (by rw [hi2', hfa]; exact hskip)]
      have hq : it2.i = unskip F it.i := by
        rw [hi2', hi]
        unfold unskip
        push_cast
        split_ifs <;> omega
      have hq0 : 0 ≤ it.i ∧ it.i < (N : Int) := by
        rw [hi]
        push_cast at hm ⊢
        split_ifs <;> omega
      obtain ⟨f', rfl⟩ : ∃ f', f = f' + 1 := ⟨f - 1, by omega⟩
      have hpos : it.i > -1 := by omega
      obtain ⟨r1, r2, r3⟩ := h.2.2 it.i hq0.1 hq0.2
      rw [← hq] at r1 r2 r3
      have hnext : (it.i - 1) = (if F < (m : Int) then (m : Int) - 2 else (m : Int) - 1) := by
        rw [hi]
        push_cast
        split_ifs <;> omega
      simp only [NEXT_loop, if_pos hpos, r1, r2, r3]
      have hb := fun (v pa' py' : Int) (i1 i2 : Int) =>
        sim_update F N it it2 it.i v pa' i1 i2 py' h
      rw [← hq] at hb
      have hc := fun (py' : Int) => ih
        { it with
            pa := it.pa - it2.indices it2.i * it2.astrides it2.i
            indices := Function.update it.indices it.i 0
            i := it.i - 1 }
        { it2 with
            pa := it2.pa - it2.indices it2.i * it2.astrides it2.i
            py := py'
            indices := Function.update it2.indices it2.i 0
            i := it2.i - 1 } f' g2 (by simp only; omega) hnext (by omega)
        (by simp only; omega) (by omega)
        (by
          have := hb 0 (-(it2.indices it2.i * it2.astrides it2.i)) py' (it.i - 1) (it2.i - 1)
          simpa only [← sub_eq_add_neg] using this)
      by_cases hax : it2.i = it2.axis
      · rw [if_pos hax]
        by_cases hc1 : it2.indices it2.i < it2.shape it2.i - 1
        · simp only [if_pos hc1]
          exact hb (it2.indices it2.i + 1) (it2.astrides it2.i) it2.py it.i it2.i
        · simp only [if_neg hc1]
          exact hc it2.py
      · rw [if_neg hax]
        by_cases hc1 : it2.indices it2.i < it2.shape it2.i - 1
        · simp only [if_pos hc1]
          exact hb (it2.indices it2.i + 1) (it2.astrides it2.i) (it2.py + it2.ystrides it2.i)
            it.i it2.i
        · simp only [if_neg hc1]
          exact hc (it2.py - it2.indices it2.i * it2.ystrides it2.i)

theorem sim_NEXT (F : Int) (hF : 0 ≤ F) (it : iter) (it2 : iter2) (hn : -1 ≤ it.ndim_m2)
    (hnd : it2.ndim = it.ndim_m2 + 2) (hFN : F ≤ it.ndim_m2 + 1)
    (h : Sim F (it.ndim_m2 + 1).toNat it it2) :
    Sim F (it.ndim_m2 + 1).toNat (NEXT it) (NEXT2 it2) := by
  have hl := sim_loop F hF (it.ndim_m2 + 1).toNat (by omega) it2.ndim.toNat
    { it with i := it.ndim_m2 } { it2 with i := it2.ndim - 1 }
    (it.ndim_m2 + 1).toNat it2.ndim.toNat (by simp only; omega)
    (by simp only; rw [if_pos (by omega)]; omega) (by omega) (by simp only; omega) le_rfl
    ⟨h.1, h.2.1, h.2.2⟩
  exact ⟨hl.1, hl.2.1, hl.2.2⟩

theorem sim_init (it : iter) (it2 : iter2) (a y : PyArrayObject) (axis fast_axis : Int)
    (h0 : 0 ≤ axis) (hf0 : 0 ≤ fast_axis) (hf1 : fast_axis < a.nd) :
    Sim fast_axis (a.nd - 1).toNat (init_iter it a fast_axis)
      (init_iter2 it2 a y axis fast_axis) := by
  obtain ⟨-, -, f3, -⟩ := init_iter_frame it a fast_axis
  obtain ⟨-, -, g3, -, -, -, -, g8, -⟩ := init_iter2_frame it2 a y axis fast_axis
  refine ⟨g3, by rw [f3, g8], fun p hp0 hp => ?_⟩
  obtain ⟨o1, o2, o3⟩ := init_iter_outer it a fast_axis hf0 hf1 p hp0 (by omega)
  have hu : 0 ≤ unskip fast_axis p ∧ unskip fast_axis p < a.nd := by
    unfold unskip
    split_ifs <;> omega
  obtain ⟨c1, c2, c3, -⟩ := init_iter2_cells it2 a y axis fast_axis h0 (unskip fast_axis p)
    hu.1 hu.2
  exact ⟨by rw [o3, c1], by rw [o1, c3], by rw [o2, c2]⟩

theorem sim_run (it : iter) (it2 : iter2) (a y : PyArrayObject) (axis fast_axis : Int)
    (h0 : 0 ≤ axis) (hf0 : 0 ≤ fast_axis) (hf1 : fast_axis < a.nd) (n : Nat) :
    Sim fast_axis (a.nd - 1).toNat (NEXT^[n] (init_iter it a fast_axis))
      (NEXT2^[n] (init_iter2 it2 a y axis fast_axis)) := by
  induction n with
  | zero => exact sim_init it it2 a y axis fast_axis h0 hf0 hf1
  | succ n ih =>
    rw [Function.iterate_succ_apply', Function.iterate_succ_apply']
    obtain ⟨-, -, -, k4, -⟩ := NEXT_iterate_inv (init_iter it a fast_axis) n
    rw [(init_iter_frame it a fast_axis).1] at k4
    obtain ⟨⟨-, -, -, -, -, -, j7, -⟩, -⟩ :=
      NEXT2_iterate_inv (init_iter2 it2 a y axis fast_axis) n
    rw [(init_iter2_frame it2 a y axis fast_axis).1] at j7
    have e : ((NEXT^[n] (init_iter it a fast_axis)).ndim_m2 + 1).toNat = (a.nd - 1).toNat := by
      rw [k4]
      congr 1
      ring
    have := sim_NEXT fast_axis hf0 (NEXT^[n] (init_iter it a fast_axis))
      (NEXT2^[n] (init_iter2 it2 a y axis fast_axis)) (by omega) (by rw [k4, j7]; ring)
      (by omega) (by rw [e]; exact ih)
    rwa [e] at this

/-- The indices of the paired iterator with position fast_axis deleted are
the indices of the single iterator built on the same source with
axis = fast_axis, after the same number of advances. -/
theorem NEXT2_run_indices (it : iter) (it2 : iter2) (a y : PyArrayObject)
    (axis fast_axis : Int) (h0 : 0 ≤ axis) (hf0 : 0 ≤ fast_axis) (hf1 : fast_axis < a.nd)
    (n : Nat) (p : Int) (hp0 : 0 ≤ p) (hp : p < a.nd - 1) :
    (NEXT2^[n] (init_iter2 it2 a y axis fast_axis)).indices (if p < fast_axis then p else p + 1)
      = (NEXT^[n] (init_iter it a fast_axis)).indices p :=
  ((sim_run it it2 a y axis fast_axis h0 hf0 hf1 n).2.2 p hp0 (by omega)).1.symm

theorem init_iter2_nits_eq (it : iter) (it2 : iter2) (a y : PyArrayObject)
    (axis fast_axis : Int) :
    (init_iter2 it2 a y axis fast_axis).nits = (init_iter it a fast_axis).nits := by
  rw [init_iter2_nits, init_iter_nits]

/-- Claim C11: when every source length other than the one at fast_axis is at
least 1, the indices after k < nits NEXT2, position fast_axis deleted, are the
mixed-radix digits of k over the source shape with position fast_axis deleted
(last remaining position least significant); so the nits outer coordinates
are pairwise distinct, every outer coordinate is visited by exactly one
k < nits, and a smaller k has the lexicographically smaller coordinate. -/
theorem paired_iterator_visits_in_mixed_radix_order (it : iter2) (a y : PyArrayObject)
    (axis fast_axis : Int) (h0 : 0 ≤ axis) (hf0 : 0 ≤ fast_axis) (hf1 : fast_axis < a.nd)
    (hlen : ∀ j : Int, 0 ≤ j → j < a.nd → j ≠ fast_axis → 1 ≤ a.dimensions j) :
    (∀ k : Nat, (k : Int) < (init_iter2 it a y axis fast_axis).nits →
      ∀ j : Int, 0 ≤ j → j < a.nd - 1 →
        (NEXT2^[k] (init_iter2 it a y axis fast_axis)).indices
            (if j < fast_axis then j else j + 1)
          = mixedRadix (outerShape a fast_axis) (a.nd - 1).toNat (k : Int) j) ∧
    (∀ k k' : Nat, (k : Int) < (init_iter2 it a y axis fast_axis).nits →
      (k' : Int) < (init_iter2 it a y axis fast_axis).nits → k ≠ k' →
        ∃ j : Int, 0 ≤ j ∧ j < a.nd - 1 ∧
          (NEXT2^[k] (init_iter2 it a y axis fast_axis)).indices
              (if j < fast_axis then j else j + 1)
            ≠ (NEXT2^[k'] (init_iter2 it a y axis fast_axis)).indices
              (if j < fast_axis then j else j + 1)) ∧
    (∀ c : Int → Int,
      (∀ j : Int, 0 ≤ j → j < a.nd - 1 → 0 ≤ c j ∧ c j < outerShape a fast_axis j) →
        ∃! k : Nat, (k : Int) < (init_iter2 it a y axis fast_axis).nits ∧
          ∀ j : Int, 0 ≤ j → j < a.nd - 1 →
            (NEXT2^[k] (init_iter2 it a y axis fast_axis)).indices
              (if j < fast_axis then j else j + 1) = c j) ∧
    (∀ k k' : Nat, k < k' → (k' : Int) < (init_iter2 it a y axis fast_axis).nits →
      ∃ d : Int, 0 ≤ d ∧ d < a.nd - 1 ∧
        (∀ j : Int, 0 ≤ j → j < d →
          (NEXT2^[k] (init_iter2 it a y axis fast_axis)).indices
              (if j < fast_axis then j else j + 1)
            = (NEXT2^[k'] (init_iter2 it a y axis fast_axis)).indices
              (if j < fast_axis then j else j + 1)) ∧
        (NEXT2^[k] (init_iter2 it a y axis fast_axis)).indices
            (if d < fast_axis then d else d + 1)
          < (NEXT2^[k'] (init_iter2 it a y axis fast_axis)).indices
            (if d < fast_axis then d else d + 1)) := by
  have hi := fun (n : Nat) (p : Int) (hp0 : 0 ≤ p) (hp : p < a.nd - 1) =>
    NEXT2_run_indices iter.zero it a y axis fast_axis h0 hf0 hf1 n p hp0 hp
  rw [init_iter2_nits_eq iter.zero it a y axis fast_axis]
  refine ⟨fun k hk j hj0 hj => ?_, fun k k' hk hk' hne => ?_, fun c hc => ?_,
    fun k k' hlt hk' => ?_⟩
  · rw [hi k j hj0 hj]
    exact NEXT_run_digits iter.zero a fast_axis hf0 hf1 hlen k hk j hj0 hj
  · obtain ⟨j, hj0, hj, hd⟩ :=
      NEXT_run_distinct iter.zero a fast_axis hf0 hf1 hlen k k' hk hk' hne
    exact ⟨j, hj0, hj, by rw [hi k j hj0 hj, hi k' j hj0 hj]; exact hd⟩
  · obtain ⟨k, ⟨hk, hkc⟩, huniq⟩ :=
      NEXT_run_cover_unique iter.zero a fast_axis hf0 hf1 hlen c hc
    refine ⟨k, ⟨hk, fun j hj0 hj => by rw [hi k j hj0 hj]; exact hkc j hj0 hj⟩, ?_⟩
    rintro k' ⟨hk', hkc'⟩
    exact huniq k' ⟨hk', fun j hj0 hj => by rw [← hi k' j hj0 hj]; exact hkc' j hj0 hj⟩
  · obtain ⟨d, hd0, hd, hagree, hless⟩ :=
      NEXT_run_lex iter.zero a fast_axis hf0 hf1 hlen k k' hlt hk'
    refine ⟨d, hd0, hd, fun j hj0 hj => ?_, ?_⟩
    · rw [hi k j hj0 (by omega), hi k' j hj0 (by omega)]
      exact hagree j hj0 hj
    · rw [hi k d hd0 hd, hi k' d hd0 hd]
      exact hless

theorem paired_iterator_visits_in_mixed_radix_order_witness :
    (NEXT2^[5] (init_iter2 iter2.zero view234 view24 1 2)).indices
        (if (0 : Int) < 2 then 0 else 0 + 1)
      = mixedRadix (outerShape view234 2) (view234.nd - 1).toNat 5 0 ∧
    (NEXT2^[5] (init_iter2 iter2.zero view234 view24 1 2)).indices
        (if (1 : Int) < 2 then 1 else 1 + 1)
      = mixedRadix (outerShape view234 2) (view234.nd - 1).toNat 5 1 ∧
    mixedRadix (outerShape view234 2) (view234.nd - 1).toNat 5 0 = 1 ∧
    mixedRadix (outerShape view234 2) (view234.nd - 1).toNat 5 1 = 2 :=
  ⟨(paired_iterator_visits_in_mixed_radix_order iter2.zero view234 view24 1 2 (by decide)
      (by decide) (by decide) (view234_lengths_pos 2)).1 5 (by decide) 0 (by decide)
      (by decide),
   (paired_iterator_visits_in_mixed_radix_order iter2.zero view234 view24 1 2 (by decide)
      (by decide) (by decide) (view234_lengths_pos 2)).1 5 (by decide) 1 (by decide)
      (by decide),
   by decide, by decide⟩

/-! ## The completed count and the loop WHILE -/

theorem WHILE_NEXT_run (body : iter → iter)
    (hb : ∀ s : iter, (body s).its = s.its ∧ (body s).nits = s.nits) (fuel : Nat) :
    ∀ s : iter × Nat, (s.1.nits - s.1.its).toNat ≤ fuel →
      (WHILE_NEXT body fuel s).2 = s.2 + (s.1.nits - s.1.its).toNat ∧
      (WHILE_NEXT body fuel s).1.nits = s.1.nits ∧
      ¬ ((WHILE_NEXT body fuel s).1.its < (WHILE_NEXT body fuel s).1.nits) ∧
      (s.1.its ≤ s.1.nits → (WHILE_NEXT body fuel s).1.its = s.1.nits) := by
  induction fuel with
  | zero =>
    intro s hs
    have e : WHILE_NEXT body 0 s = s := rfl
    rw [e]
    exact ⟨by omega, rfl, by omega, fun _ => by omega⟩
  | succ fuel ih =>
    intro s hs
    by_cases c : s.1.its < s.1.nits
    · have e : WHILE_NEXT body (fuel + 1) s = WHILE_NEXT body fuel (NEXT (body s.1), s.2 + 1) := by
        simp only [WHILE_NEXT, if_pos c]
      rw [e]
      obtain ⟨-, -, -, -, n5, n6, -⟩ := NEXT_inv (body s.1)
      obtain ⟨b1, b2⟩ := hb s.1
      have e1 : (NEXT (body s.1), s.2 + 1).1.its = s.1.its + 1 := by simp only [n5, b1]
      have e2 : (NEXT (body s.1), s.2 + 1).1.nits = s.1.nits := by simp only [n6, b2]
      obtain ⟨i1, i2, i3, i4⟩ := ih (NEXT (body s.1), s.2 + 1) (by rw [e1, e2]; omega)
      rw [e1, e2] at i1 i4
      refine ⟨?_, i2.trans e2, i3, fun _ => i4 (by omega)⟩
      rw [i1]
      simp only
      omega
    · have e : WHILE_NEXT body (fuel + 1) s = s := by simp only [WHILE_NEXT, if_neg c]
      rw [e]
      exact ⟨by omega, rfl, c, fun _ => by omega⟩

theorem WHILE_NEXT2_run (body : iter2 → iter2)
    (hb : ∀ s : iter2, (body s).its = s.its ∧ (body s).nits = s.nits) (fuel : Nat) :
    ∀ s : iter2 × Nat, (s.1.nits - s.1.its).toNat ≤ fuel →
      (WHILE_NEXT2 body fuel s).2 = s.2 + (s.1.nits - s.1.its).toNat ∧
      (WHILE_NEXT2 body fuel s).1.nits = s.1.nits ∧
      ¬ ((WHILE_NEXT2 body fuel s).1.its < (WHILE_NEXT2 body fuel s).1.nits) ∧
      (s.1.its ≤ s.1.nits → (WHILE_NEXT2 body fuel s).1.its = s.1.nits) := by
  induction fuel with
  | zero =>
    intro s hs
    have e : WHILE_NEXT2 body 0 s = s := rfl
    rw [e]
    exact ⟨by omega, rfl, by omega, fun _ => by omega⟩
  | succ fuel ih =>
    intro s hs
    by_cases c : s.1.its < s.1.nits
    · have e : WHILE_NEXT2 body (fuel + 1) s = WHILE_NEXT2 body fuel (NEXT2 (body s.1), s.2 + 1) := by
        simp only [WHILE_NEXT2, if_pos c]
      rw [e]
      obtain ⟨⟨-, -, -, -, -, -, -, -, -, n10, -⟩, n14⟩ := NEXT2_inv (body s.1)
      obtain ⟨b1, b2⟩ := hb s.1
      have e1 : (NEXT2 (body s.1), s.2 + 1).1.its = s.1.its + 1 := by simp only [n14, b1]
      have e2 : (NEXT2 (body s.1), s.2 + 1).1.nits = s.1.nits := by simp only [n10, b2]
      obtain ⟨i1, i2, i3, i4⟩ := ih (NEXT2 (body s.1), s.2 + 1) (by rw [e1, e2]; omega)
      rw [e1, e2] at i1 i4
      refine ⟨?_, i2.trans e2, i3, fun _ => i4 (by omega)⟩
      rw [i1]
      simp only
      omega
    · have e : WHILE_NEXT2 body (fuel + 1) s = s := by simp only [WHILE_NEXT2, if_neg c]
      rw [e]
      exact ⟨by omega, rfl, c, fun _ => by omega⟩

/-- Claim C12: every NEXT and every NEXT2 adds exactly 1 to its, so its = n
after n calls on a freshly built iterator; a loop while (its < nits)
{ body; NEXT } whose body leaves its and nits alone, started on a freshly
built iterator, runs its block max(nits, 0) times, leaves by its own test,
and ends with its = nits when nits >= 0 (the same with NEXT2). -/
theorem completed_count_and_loop_termination (it : iter) (it2 : iter2) (a y : PyArrayObject)
    (axis fast_axis : Int) (body : iter → iter) (body2 : iter2 → iter2)
    (hb : ∀ s : iter, (body s).its = s.its ∧ (body s).nits = s.nits)
    (hb2 : ∀ s : iter2, (body2 s).its = s.its ∧ (body2 s).nits = s.nits) (fuel : Nat)
    (hfuel : (init_iter it a axis).nits.toNat ≤ fuel)
    (hfuel2 : (init_iter2 it2 a y axis fast_axis).nits.toNat ≤ fuel) :
    (∀ s : iter, (NEXT s).its = s.its + 1) ∧
    (∀ s : iter2, (NEXT2 s).its = s.its + 1) ∧
    (∀ n : Nat, (NEXT^[n] (init_iter it a axis)).its = (n : Int)) ∧
    (∀ n : Nat, (NEXT2^[n] (init_iter2 it2 a y axis fast_axis)).its = (n : Int)) ∧
    (((WHILE_NEXT body fuel (init_iter it a axis, 0)).2 : Int)
        = max (init_iter it a axis).nits 0 ∧
      ¬ ((WHILE_NEXT body fuel (init_iter it a axis, 0)).1.its
          < (WHILE_NEXT body fuel (init_iter it a axis, 0)).1.nits) ∧
      (0 ≤ (init_iter it a axis).nits →
        (WHILE_NEXT body fuel (init_iter it a axis, 0)).1.its = (init_iter it a axis).nits)) ∧
    (((WHILE_NEXT2 body2 fuel (init_iter2 it2 a y axis fast_axis, 0)).2 : Int)
        = max (init_iter2 it2 a y axis fast_axis).nits 0 ∧
      ¬ ((WHILE_NEXT2 body2 fuel (init_iter2 it2 a y axis fast_axis, 0)).1.its
          < (WHILE_NEXT2 body2 fuel (init_iter2 it2 a y axis fast_axis, 0)).1.nits) ∧
      (0 ≤ (init_iter2 it2 a y axis fast_axis).nits →
        (WHILE_NEXT2 body2 fuel (init_iter2 it2 a y axis fast_axis, 0)).1.its
          = (init_iter2 it2 a y axis fast_axis).nits)) := by
  have z1 : (init_iter it a axis).its = 0 := (init_iter_frame it a axis).2.1
  have z2 : (init_iter2 it2 a y axis fast_axis).its = 0 :=
    (init_iter2_frame it2 a y axis fast_axis).2.2.2.2.2.2.1
  refine ⟨fun s => (NEXT_inv s).2.2.2.2.1, fun s => (NEXT2_inv s).2, fun n => ?_, fun n => ?_,
    ?_, ?_⟩
  · rw [(NEXT_iterate_inv (init_iter it a axis) n).2.2.2.2.1, z1, zero_add]
  · rw [(NEXT2_iterate_inv (init_iter2 it2 a y axis fast_axis) n).2, z2, zero_add]
  · obtain ⟨w1, -, w3, w4⟩ := WHILE_NEXT_run body hb fuel (init_iter it a axis, 0)
      (by simp only [z1]; omega)
    simp only [z1, sub_zero, zero_add] at w1 w4
    refine ⟨?_, w3, w4⟩
    rw [w1]
    omega
  · obtain ⟨w1, -, w3, w4⟩ := WHILE_NEXT2_run body2 hb2 fuel
      (init_iter2 it2 a y axis fast_axis, 0) (by simp only [z2]; omega)
    simp only [z2, sub_zero, zero_add] at w1 w4
    refine ⟨?_, w3, w4⟩
    rw [w1]
    omega

theorem completed_count_and_loop_termination_witness :
    ((WHILE_NEXT id 8 (init_iter iter.zero view234 1, 0)).2 : Int)
        = max (init_iter iter.zero view234 1).nits 0 ∧
    (WHILE_NEXT id 8 (init_iter iter.zero view234 1, 0)).1.its
        = (init_iter iter.zero view234 1).nits ∧
    ((WHILE_NEXT2 id 8 (init_iter2 iter2.zero view234 view24 1 2, 0)).2 : Int)
        = max (init_iter2 iter2.zero view234 view24 1 2).nits 0 ∧
    (init_iter iter.zero view234 1).nits = 8 ∧
    (init_iter2 iter2.zero view234 view24 1 2).nits = 6 :=
  have h := completed_count_and_loop_termination iter.zero iter2.zero view234 view24 1 2 id id
    (fun _ => ⟨rfl, rfl⟩) (fun _ => ⟨rfl, rfl⟩) 8 (by decide) (by decide)
  ⟨h.2.2.2.2.1.1, h.2.2.2.2.1.2.2 (by decide), h.2.2.2.2.2.1, by decide, by decide⟩

/-! ## Views of rank 2 -/

theorem rank2_run (it : iter) (a : PyArrayObject) (axis : Int) (hnd : a.nd = 2)
    (hax : axis = 0 ∨ axis = 1) (hl0 : 1 ≤ a.dimensions 0) (hl1 : 1 ≤ a.dimensions 1) :
    (init_iter it a axis).nits = a.dimensions (1 - axis) ∧
    ∀ k : Nat, (k : Int) < (init_iter it a axis).nits →
      (NEXT^[k] (init_iter it a axis)).pa = a.data + (k : Int) * a.strides (1 - axis) := by
  have h0 : 0 ≤ axis := by omega
  have h1 : axis < a.nd := by omega
  have hN : (a.nd - 1).toNat = 1 := by rw [hnd]; rfl
  have hu : (if (0 : Int) < axis then (0 : Int) else 0 + 1) = 1 - axis := by
    rcases hax with e | e <;> subst e <;> rfl
  have hlen : ∀ j : Int, 0 ≤ j → j < a.nd → j ≠ axis → 1 ≤ a.dimensions j := by
    intro j hj0 hj _
    have : j = 0 ∨ j = 1 := by omega
    rcases this with e | e <;> subst e <;> assumption
  have hnits : (init_iter it a axis).nits = a.dimensions (1 - axis) := by
    rw [init_iter_nits_outer it a axis h0 h1, hN]
    simp only [Finset.prod_range_one, outerShape, Nat.cast_zero, hu]
  refine ⟨hnits, fun k hk => ?_⟩
  have hr := NEXT_run_rank_lt it a axis h0 h1 hlen k hk
  rw [hN] at hr
  simp only [rowMajorRank, zero_mul, zero_add, Nat.cast_zero] at hr
  have hp := NEXT_iterate_pa it a axis h0 h1 k
  rw [hN] at hp
  simp only [Finset.sum_range_one, Nat.cast_zero] at hp
  rw [hp, hr, (NEXT_iterate_inv (init_iter it a axis) k).2.1,
    (init_iter_outer it a axis h0 h1 0 le_rfl (by omega)).2.1]
  unfold unskip
  rw [hu]

/-- Claim C13: for a view of rank 2 with both lengths at least 1 and axis 0 or
1, init_iter sets nits to the length of the other position 1 - axis, and
after k < nits NEXT the pointer is the base plus k times the stride of that
other position. For shape (3, 4) with strides (s0, s1): axis = 1 gives
nits = 3 and offsets 0, s0, 2 s0; axis = 0 gives nits = 4 and offsets 0, s1,
2 s1, 3 s1. -/
theorem rank2_traversal (it : iter) (a : PyArrayObject) (axis : Int) (hnd : a.nd = 2)
    (hax : axis = 0 ∨ axis = 1) (hl0 : 1 ≤ a.dimensions 0) (hl1 : 1 ≤ a.dimensions 1) :
    ((init_iter it a axis).nits = a.dimensions (1 - axis) ∧
      ∀ k : Nat, (k : Int) < (init_iter it a axis).nits →
        (NEXT^[k] (init_iter it a axis)).pa = a.data + (k : Int) * a.strides (1 - axis)) ∧
    (∀ s0 s1 base : Int,
      (init_iter it (mkArray [3, 4] [s0, s1] base) 1).nits = 3 ∧
      (NEXT^[0] (init_iter it (mkArray [3, 4] [s0, s1] base) 1)).pa = base + 0 ∧
      (NEXT^[1] (init_iter it (mkArray [3, 4] [s0, s1] base) 1)).pa = base + s0 ∧
      (NEXT^[2] (init_iter it (mkArray [3, 4] [s0, s1] base) 1)).pa = base + 2 * s0) ∧
    (∀ s0 s1 base : Int,
      (init_iter it (mkArray [3, 4] [s0, s1] base) 0).nits = 4 ∧
      (NEXT^[0] (init_iter it (mkArray [3, 4] [s0, s1] base) 0)).pa = base + 0 ∧
      (NEXT^[1] (init_iter it (mkArray [3, 4] [s0, s1] base) 0)).pa = base + s1 ∧
      (NEXT^[2] (init_iter it (mkArray [3, 4] [s0, s1] base) 0)).pa = base + 2 * s1 ∧
      (NEXT^[3] (init_iter it (mkArray [3, 4] [s0, s1] base) 0)).pa = base + 3 * s1) := by
  refine ⟨rank2_run it a axis hnd hax hl0 hl1, fun s0 s1 base => ?_, fun s0 s1 base => ?_⟩
  · obtain ⟨g1, g2⟩ := rank2_run it (mkArray [3, 4] [s0, s1] base) 1 rfl (Or.inr rfl)
      (by simp [mkArray]) (by simp [mkArray])
    have e : (init_iter it (mkArray [3, 4] [s0, s1] base) 1).nits = 3 := g1
    rw [e] at g2
    refine ⟨e, ?_, ?_, ?_⟩
    · simpa [mkArray] using g2 0 (by decide)
    · simpa [mkArray] using g2 1 (by decide)
    · simpa [mkArray] using g2 2 (by decide)
  · obtain ⟨g1, g2⟩ := rank2_run it (mkArray [3, 4] [s0, s1] base) 0 rfl (Or.inl rfl)
      (by simp [mkArray]) (by simp [mkArray])
    have e : (init_iter it (mkArray [3, 4] [s0, s1] base) 0).nits = 4 := g1
    rw [e] at g2
    refine ⟨e, ?_, ?_, ?_, ?_⟩
    · simpa [mkArray] using g2 0 (by decide)
    · simpa [mkArray] using g2 1 (by decide)
    · simpa [mkArray] using g2 2 (by decide)
    · simpa [mkArray] using g2 3 (by decide)

theorem rank2_traversal_witness :
    (init_iter iter.zero view24 1).nits = view24.dimensions (1 - 1) ∧
    (NEXT^[1] (init_iter iter.zero view24 1)).pa
      = view24.data + ((1 : Nat) : Int) * view24.strides (1 - 1) ∧
    (NEXT^[1] (init_iter iter.zero view24 1)).pa = 5032 :=
  have h := (rank2_traversal iter.zero view24 1 (by decide) (Or.inr rfl) (by decide)
    (by decide)).1
  ⟨h.1, h.2 1 (by decide), by decide⟩

/-! ## The paired scenario of shape (2, 3, 4) -/

/-- Claim C14 as stated fails: for the source of shape (2, 3, 4), the target
of shape (2, 4), axis = 1 and fast_axis = 2, init_iter2 does not set nits
to 2 (it sets it to 6). -/
theorem paired_scenario_total_is_not_two :
    ¬ ((init_iter2 iter2.zero view234 view24 1 2).nits = 2 ∧
        (init_iter2 iter2.zero view234 view24 1 2).ystrides 1 = 0 ∧
        (init_iter2 iter2.zero view234 view24 1 2).ystrides 0 = view24.strides 0) := by
  decide

/-- Claim C14, amended: for every source of rank 3 with lengths 2 and 3 at
positions 0 and 1 (so for shape (2, 3, 4)), every target, axis = 1 and
fast_axis = 2, init_iter2 sets nits to 6 = 2 * 3, the product of the source
lengths other than the one at fast_axis, with ystrides[1] = 0 and ystrides[0]
the target stride at position 0. -/
theorem paired_scenario_total_is_six (it : iter2) (a y : PyArrayObject) (hnd : a.nd = 3)
    (d0 : a.dimensions 0 = 2) (d1 : a.dimensions 1 = 3) :
    (init_iter2 it a y 1 2).nits = 6 ∧
    (init_iter2 it a y 1 2).nits = a.dimensions 0 * a.dimensions 1 ∧
    (init_iter2 it a y 1 2).ystrides 1 = 0 ∧
    (init_iter2 it a y 1 2).ystrides 0 = y.strides 0 := by
  have hn : (init_iter2 it a y 1 2).nits = a.dimensions 0 * a.dimensions 1 := by
    have he : (Finset.range (3 : Int).toNat).filter (fun k : Nat => (k : Int) ≠ 2)
        = {0, 1} := by decide
    rw [init_iter2_nits, hnd, he]
    simp
  obtain ⟨-, -, -, c1⟩ := init_iter2_cells it a y 1 2 (by decide) 1 (by decide) (by omega)
  obtain ⟨-, -, -, c0⟩ := init_iter2_cells it a y 1 2 (by decide) 0 (by decide) (by omega)
  refine ⟨by rw [hn, d0, d1]; rfl, hn, ?_, ?_⟩
  · simpa using c1
  · simpa using c0

theorem paired_scenario_total_is_six_witness :
    (init_iter2 iter2.zero view234 view24 1 2).nits = 6 ∧
    (init_iter2 iter2.zero view234 view24 1 2).nits
      = view234.dimensions 0 * view234.dimensions 1 ∧
    (init_iter2 iter2.zero view234 view24 1 2).ystrides 1 = 0 ∧
    (init_iter2 iter2.zero view234 view24 1 2).ystrides 0 = view24.strides 0 :=
  paired_scenario_total_is_six iter2.zero view234 view24 (by decide) (by decide) (by decide)

/-! ## After nits advances: back at the start -/

theorem rowMajorRank_max (shape idx : Int → Int) (m : Nat)
    (h : ∀ j : Nat, j < m → idx (j : Int) = shape (j : Int) - 1) :
    rowMajorRank shape idx m = ∏ j ∈ Finset.range m, shape (j : Int) - 1 := by
  induction m with
  | zero => simp [rowMajorRank]
  | succ m ih =>
    simp only [rowMajorRank]
    rw [ih (fun j hj => h j (by omega)), h m (by omega), Finset.prod_range_succ]
    ring

theorem NEXT_loop_indices_frame (fuel : Nat) (it : iter) (p : Int)
    (hp : p < 0 ∨ it.i < p) : (NEXT_loop fuel it).indices p = it.indices p := by
  induction fuel generalizing it with
  | zero => rfl
  | succ fuel ih =>
    simp only [NEXT_loop]
    by_cases hi : it.i > -1
    · have hne : p ≠ it.i := by omega
      rw [if_pos hi]
      split_ifs
      · simp only [Function.update_noteq hne]
      · rw [ih _ (by simp only; omega)]
        simp only [Function.update_noteq hne]
    · rw [if_neg hi]

theorem NEXT_iterate_indices_frame (it : iter) (n : Nat) (p : Int)
    (hp : p < 0 ∨ it.ndim_m2 < p) : (NEXT^[n] it).indices p = it.indices p := by
  induction n with
  | zero => rfl
  | succ n ih =>
    rw [Function.iterate_succ_apply', NEXT_indices,
      NEXT_loop_indices_frame _ _ p
        (by simp only; rw [(NEXT_iterate_inv it n).2.2.2.1]; exact hp)]
    exact ih

theorem init_iter_nits_pos (it : iter) (a : PyArrayObject) (axis : Int)
    (hlen : ∀ j : Int, 0 ≤ j → j < a.nd → j ≠ axis → 1 ≤ a.dimensions j) :
    1 ≤ (init_iter it a axis).nits := by
  rw [init_iter_nits]
  have : 0 < ∏ k ∈ (Finset.range a.nd.toNat).filter (fun k : Nat => (k : Int) ≠ axis),
      a.dimensions (k : Int) := by
    refine Finset.prod_pos (fun k hk => ?_)
    rw [Finset.mem_filter, Finset.mem_range] at hk
    have := hlen (k : Int) (by omega) (by omega) hk.2
    omega
  omega

theorem outerShape_pos (a : PyArrayObject) (axis : Int)
    (hlen : ∀ j : Int, 0 ≤ j → j < a.nd → j ≠ axis → 1 ≤ a.dimensions j) (j : Int)
    (hj0 : 0 ≤ j) (hj : j < a.nd - 1) : 1 ≤ outerShape a axis j := by
  unfold outerShape
  split_ifs
  · exact hlen _ (by omega) (by omega) (by omega)
  · exact hlen _ (by omega) (by omega) (by omega)

/-- After exactly nits advances every outer index is 0 again. -/
theorem NEXT_run_wrap_indices (it : iter) (a : PyArrayObject) (axis : Int)
    (h0 : 0 ≤ axis) (h1 : axis < a.nd)
    (hlen : ∀ j : Int, 0 ≤ j → j < a.nd → j ≠ axis → 1 ≤ a.dimensions j) (j : Int)
    (hj0 : 0 ≤ j) (hj : j < a.nd - 1) :
    (NEXT^[(init_iter it a axis).nits.toNat] (init_iter it a axis)).indices j = 0 := by
  have hpos := init_iter_nits_pos it a axis hlen
  obtain ⟨b, r⟩ := NEXT_run_rank it a axis h0 h1 hlen (init_iter it a axis).nits.toNat
  rw [Int.toNat_of_nonneg (by omega), Int.emod_self] at r
  have hz : InBounds (outerShape a axis) (fun _ => 0) (a.nd - 1).toNat := fun p hp => by
    have := outerShape_pos a axis hlen (p : Int) (by omega) (by omega)
    simp only
    omega
  have := rowMajorRank_inj _ _ _ _ b hz
    (r.trans (rowMajorRank_zero _ _ _ (fun _ _ => rfl)).symm) j.toNat (by omega)
  rwa [Int.toNat_of_nonneg hj0] at this

/-- After nits - 1 advances every outer index is at its maximum. -/
theorem NEXT_run_last_indices (it : iter) (a : PyArrayObject) (axis : Int)
    (h0 : 0 ≤ axis) (h1 : axis < a.nd)
    (hlen : ∀ j : Int, 0 ≤ j → j < a.nd → j ≠ axis → 1 ≤ a.dimensions j) (j : Int)
    (hj0 : 0 ≤ j) (hj : j < a.nd - 1) :
    (NEXT^[(init_iter it a axis).nits.toNat - 1] (init_iter it a axis)).indices j
      = outerShape a axis j - 1 := by
  have hpos := init_iter_nits_pos it a axis hlen
  have hk : (((init_iter it a axis).nits.toNat - 1 : Nat) : Int) < (init_iter it a axis).nits := by
    omega
  have b := (NEXT_run_rank it a axis h0 h1 hlen ((init_iter it a axis).nits.toNat - 1)).1
  have r := NEXT_run_rank_lt it a axis h0 h1 hlen _ hk
  have hz : InBounds (outerShape a axis) (fun p => outerShape a axis p - 1) (a.nd - 1).toNat :=
    fun p hp => by
      have := outerShape_pos a axis hlen (p : Int) (by omega) (by omega)
      simp only
      omega
  have hm := rowMajorRank_max (outerShape a axis) (fun p => outerShape a axis p - 1)
    (a.nd - 1).toNat (fun _ _ => rfl)
  rw [← init_iter_nits_outer it a axis h0 h1] at hm
  have := rowMajorRank_inj _ _ _ _ b hz (by rw [r, hm]; omega) j.toNat (by omega)
  rwa [Int.toNat_of_nonneg hj0] at this

theorem NEXT_run_wrap_pa (it : iter) (a : PyArrayObject) (axis : Int)
    (h0 : 0 ≤ axis) (h1 : axis < a.nd)
    (hlen : ∀ j : Int, 0 ≤ j → j < a.nd → j ≠ axis → 1 ≤ a.dimensions j) :
    (NEXT^[(init_iter it a axis).nits.toNat] (init_iter it a axis)).pa = a.data := by
  rw [NEXT_iterate_pa it a axis h0 h1, Finset.sum_eq_zero, add_zero]
  intro d hd
  have hd2 : d < (a.nd - 1).toNat := Finset.mem_range.mp hd
  rw [NEXT_run_wrap_indices it a axis h0 h1 hlen (d : Int) (by omega) (by omega), zero_mul]

/-- Claim C15 as stated fails: on the 2 by 4 view with axis = 1 (two outer
coordinates, at byte offsets 0 and 32) the state after nits - 1 = 1 advance
has its outer index at the maximum, and the NEXT called there leaves pa at
the pointer of the first coordinate visited. -/
theorem terminal_advance_returns_to_a_visited_pointer :
    (init_iter iter.zero view24 1).nits = 2 ∧
    (NEXT^[1] (init_iter iter.zero view24 1)).indices 0
      = (init_iter iter.zero view24 1).shape 0 - 1 ∧
    (NEXT^[0] (init_iter iter.zero view24 1)).pa ≠ (NEXT^[1] (init_iter iter.zero view24 1)).pa ∧
    ¬ (∀ k : Nat, k < 2 →
        (NEXT (NEXT^[1] (init_iter iter.zero view24 1))).pa
          ≠ (NEXT^[k] (init_iter iter.zero view24 1)).pa) := by
  refine ⟨by decide, by decide, by decide, fun h => h 0 (by decide) (by decide)⟩

/-- Claim C15, amended: on a view whose outer lengths are all at least 1, the
state after nits - 1 advances has every outer index at its maximum, and the
NEXT called there sets every outer index to 0 and leaves pa at the base of
the view, which is the pointer of the first outer coordinate visited. -/
theorem terminal_advance_rewinds_to_base (it : iter) (a : PyArrayObject) (axis : Int)
    (h0 : 0 ≤ axis) (h1 : axis < a.nd)
    (hlen : ∀ j : Int, 0 ≤ j → j < a.nd → j ≠ axis → 1 ≤ a.dimensions j) :
    (∀ j : Int, 0 ≤ j → j < a.nd - 1 →
      (NEXT^[(init_iter it a axis).nits.toNat - 1] (init_iter it a axis)).indices j
        = (NEXT^[(init_iter it a axis).nits.toNat - 1] (init_iter it a axis)).shape j - 1) ∧
    (∀ j : Int, 0 ≤ j → j < a.nd - 1 →
      (NEXT (NEXT^[(init_iter it a axis).nits.toNat - 1] (init_iter it a axis))).indices j
        = 0) ∧
    (NEXT (NEXT^[(init_iter it a axis).nits.toNat - 1] (init_iter it a axis))).pa = a.data ∧
    (NEXT (NEXT^[(init_iter it a axis).nits.toNat - 1] (init_iter it a axis))).pa
      = (NEXT^[0] (init_iter it a axis)).pa := by
  have hpos := init_iter_nits_pos it a axis hlen
  have e : NEXT (NEXT^[(init_iter it a axis).nits.toNat - 1] (init_iter it a axis))
      = NEXT^[(init_iter it a axis).nits.toNat] (init_iter it a axis) := by
    obtain ⟨m, hm⟩ : ∃ m : Nat, (init_iter it a axis).nits.toNat = m + 1 :=
      ⟨(init_iter it a axis).nits.toNat - 1, by omega⟩
    rw [hm, Nat.add_sub_cancel, Function.iterate_succ_apply']
  rw [e]
  refine ⟨fun j hj0 hj => ?_, fun j hj0 hj => NEXT_run_wrap_indices it a axis h0 h1 hlen j hj0 hj,
    NEXT_run_wrap_pa it a axis h0 h1 hlen, ?_⟩
  · rw [NEXT_run_last_indices it a axis h0 h1 hlen j hj0 hj,
      (NEXT_iterate_inv (init_iter it a axis) _).2.2.1,
      (init_iter_outer it a axis h0 h1 j hj0 hj).1]
    rfl
  · rw [NEXT_run_wrap_pa it a axis h0 h1 hlen]
    exact (init_iter_frame it a axis).2.2.1.symm

theorem view24_lengths_pos (axis : Int) :
    ∀ j : Int, 0 ≤ j → j < view24.nd → j ≠ axis → 1 ≤ view24.dimensions j := by
  intro j hj0 hj _
  have e : view24.nd = 2 := by decide
  rw [e] at hj
  interval_cases j <;> decide

theorem terminal_advance_rewinds_to_base_witness :
    (NEXT (NEXT^[(init_iter iter.zero view24 1).nits.toNat - 1]
      (init_iter iter.zero view24 1))).pa = view24.data ∧
    (NEXT (NEXT^[(init_iter iter.zero view24 1).nits.toNat - 1]
      (init_iter iter.zero view24 1))).indices 0 = 0 :=
  have h := terminal_advance_rewinds_to_base iter.zero view24 1 (by decide) (by decide)
    (view24_lengths_pos 1)
  ⟨h.2.2.1, h.2.1 0 (by decide) (by decide)⟩

theorem NEXT2_loop_indices_frame (fuel : Nat) (it : iter2) (p : Int)
    (hp : p < 0 ∨ it.i < p) : (NEXT2_loop fuel it).indices p = it.indices p := by
  induction fuel generalizing it with
  | zero => rfl
  | succ fuel ih =>
    simp only [NEXT2_loop]
    by_cases hi : it.i > -1
    · have hne : p ≠ it.i := by omega
      rw [if_pos hi]
      split_ifs
      · rw [ih _ (by simp only; omega)]
      · simp only [Function.update_noteq hne]
      · rw [ih _ (by simp only; omega)]
        simp only [Function.update_noteq hne]
      · simp only [Function.update_noteq hne]
      · rw [ih _ (by simp only; omega)]
        simp only [Function.update_noteq hne]
    · rw [if_neg hi]

theorem NEXT2_iterate_indices_frame (it : iter2) (n : Nat) (p : Int)
    (hp : p < 0 ∨ it.ndim - 1 < p) : (NEXT2^[n] it).indices p = it.indices p := by
  induction n with
  | zero => rfl
  | succ n ih =>
    rw [Function.iterate_succ_apply']
    have e : (NEXT2 (NEXT2^[n] it)).indices
        = (NEXT2_loop (NEXT2^[n] it).ndim.toNat
            { NEXT2^[n] it with i := (NEXT2^[n] it).ndim - 1 }).indices := rfl
    rw [e, NEXT2_loop_indices_frame _ _ p
      (by simp only; rw [(NEXT2_iterate_inv it n).1.2.2.2.2.2.2.1]; exact hp)]
    exact ih

/-- After exactly nits advances every index of the paired iterator is 0. -/
theorem NEXT2_run_wrap_indices (it : iter2) (a y : PyArrayObject) (axis fast_axis : Int)
    (h0 : 0 ≤ axis) (hf0 : 0 ≤ fast_axis) (hf1 : fast_axis < a.nd)
    (hlen : ∀ j : Int, 0 ≤ j → j < a.nd → j ≠ fast_axis → 1 ≤ a.dimensions j) (d : Int)
    (hd0 : 0 ≤ d) (hd : d < a.nd) :
    (NEXT2^[(init_iter2 it a y axis fast_axis).nits.toNat]
      (init_iter2 it a y axis fast_axis)).indices d = 0 := by
  by_cases e : d = fast_axis
  · rw [e]
    exact (NEXT2_run_frame it a y axis fast_axis h0 hf0 hf1 _).1
  · have hu : (if (if d < fast_axis then d else d - 1) < fast_axis
        then (if d < fast_axis then d else d - 1)
        else (if d < fast_axis then d else d - 1) + 1) = d := by
      split_ifs <;> omega
    have hp : 0 ≤ (if d < fast_axis then d else d - 1) ∧
        (if d < fast_axis then d else d - 1) < a.nd - 1 := by
      split_ifs <;> omega
    have := NEXT2_run_indices iter.zero it a y axis fast_axis h0 hf0 hf1
      (init_iter2 it a y axis fast_axis).nits.toNat _ hp.1 hp.2
    rw [hu] at this
    rw [this, init_iter2_nits_eq iter.zero it a y axis fast_axis]
    exact NEXT_run_wrap_indices iter.zero a fast_axis hf0 hf1 hlen _ hp.1 hp.2

/-- Claim C19: on a view whose outer lengths are all at least 1, exactly nits
NEXT on a freshly built iter bring every outer index back to 0 and pa back to
the base: indices, pa, astrides, shape, ndim_m2, nits, length, astride and
axis are as init_iter left them and its is nits. The same holds for nits
NEXT2 on a freshly built iter2, for pa and for py. -/
theorem wrap_around_after_nits_advances (it : iter) (it2 : iter2) (a b y : PyArrayObject)
    (axis1 axis fast_axis : Int) (h0 : 0 ≤ axis1) (h1 : axis1 < a.nd)
    (hlen : ∀ j : Int, 0 ≤ j → j < a.nd → j ≠ axis1 → 1 ≤ a.dimensions j)
    (g0 : 0 ≤ axis) (hf0 : 0 ≤ fast_axis) (hf1 : fast_axis < b.nd)
    (hlen2 : ∀ j : Int, 0 ≤ j → j < b.nd → j ≠ fast_axis → 1 ≤ b.dimensions j) :
    ((∀ j : Int, 0 ≤ j → j < a.nd - 1 →
        (NEXT^[(init_iter it a axis1).nits.toNat] (init_iter it a axis1)).indices j = 0) ∧
      (NEXT^[(init_iter it a axis1).nits.toNat] (init_iter it a axis1)).indices
        = (init_iter it a axis1).indices ∧
      (NEXT^[(init_iter it a axis1).nits.toNat] (init_iter it a axis1)).pa = a.data ∧
      (NEXT^[(init_iter it a axis1).nits.toNat] (init_iter it a axis1)).pa
        = (init_iter it a axis1).pa ∧
      (NEXT^[(init_iter it a axis1).nits.toNat] (init_iter it a axis1)).its
        = (init_iter it a axis1).nits ∧
      (NEXT^[(init_iter it a axis1).nits.toNat] (init_iter it a axis1)).astrides
        = (init_iter it a axis1).astrides ∧
      (NEXT^[(init_iter it a axis1).nits.toNat] (init_iter it a axis1)).shape
        = (init_iter it a axis1).shape ∧
      (NEXT^[(init_iter it a axis1).nits.toNat] (init_iter it a axis1)).ndim_m2
        = (init_iter it a axis1).ndim_m2 ∧
      (NEXT^[(init_iter it a axis1).nits.toNat] (init_iter it a axis1)).nits
        = (init_iter it a axis1).nits ∧
      (NEXT^[(init_iter it a axis1).nits.toNat] (init_iter it a axis1)).length
        = (init_iter it a axis1).length ∧
      (NEXT^[(init_iter it a axis1).nits.toNat] (init_iter it a axis1)).astride
        = (init_iter it a axis1).astride ∧
      (NEXT^[(init_iter it a axis1).nits.toNat] (init_iter it a axis1)).axis
        = (init_iter it a axis1).axis) ∧
    ((∀ d : Int, 0 ≤ d → d < b.nd →
        (NEXT2^[(init_iter2 it2 b y axis fast_axis).nits.toNat]
          (init_iter2 it2 b y axis fast_axis)).indices d = 0) ∧
      (NEXT2^[(init_iter2 it2 b y axis fast_axis).nits.toNat]
          (init_iter2 it2 b y axis fast_axis)).indices
        = (init_iter2 it2 b y axis fast_axis).indices ∧
      (NEXT2^[(init_iter2 it2 b y axis fast_axis).nits.toNat]
          (init_iter2 it2 b y axis fast_axis)).pa = b.data ∧
      (NEXT2^[(init_iter2 it2 b y axis fast_axis).nits.toNat]
          (init_iter2 it2 b y axis fast_axis)).py = y.data ∧
      (NEXT2^[(init_iter2 it2 b y axis fast_axis).nits.toNat]
          (init_iter2 it2 b y axis fast_axis)).its
        = (init_iter2 it2 b y axis fast_axis).nits ∧
      NEXT2_keeps b.nd.toNat (init_iter2 it2 b y axis fast_axis)
        (NEXT2^[(init_iter2 it2 b y axis fast_axis).nits.toNat]
          (init_iter2 it2 b y axis fast_axis))) := by
  constructor
  · obtain ⟨-, k2, k3, k4, k5, k6, k7, k8, k9⟩ :=
      NEXT_iterate_inv (init_iter it a axis1) (init_iter it a axis1).nits.toNat
    have hpos := init_iter_nits_pos it a axis1 hlen
    have hz := fun j hj0 hj => NEXT_run_wrap_indices it a axis1 h0 h1 hlen j hj0 hj
    have hpa := NEXT_run_wrap_pa it a axis1 h0 h1 hlen
    refine ⟨hz, ?_, hpa, hpa.trans (init_iter_frame it a axis1).2.2.1.symm, ?_, k2, k3, k4, k6,
      k7, k8, k9⟩
    · funext p
      by_cases c : 0 ≤ p ∧ p < a.nd - 1
      · rw [hz p c.1 c.2, (init_iter_outer it a axis1 h0 h1 p c.1 c.2).2.2]
      · exact NEXT_iterate_indices_frame _ _ p
          (by rw [(init_iter_frame it a axis1).1]; omega)
    · rw [k5, (init_iter_frame it a axis1).2.1, Int.toNat_of_nonneg (by omega)]
      ring
  · obtain ⟨keeps, kits⟩ :=
      NEXT2_iterate_inv (init_iter2 it2 b y axis fast_axis)
        (init_iter2 it2 b y axis fast_axis).nits.toNat
    obtain ⟨f1, -, -, -, -, -, f7, -⟩ := init_iter2_frame it2 b y axis fast_axis
    have hpos : 1 ≤ (init_iter2 it2 b y axis fast_axis).nits := by
      rw [init_iter2_nits_eq iter.zero it2 b y axis fast_axis]
      exact init_iter_nits_pos iter.zero b fast_axis hlen2
    have hz := fun d hd0 hd =>
      NEXT2_run_wrap_indices it2 b y axis fast_axis g0 hf0 hf1 hlen2 d hd0 hd
    rw [f1] at keeps
    refine ⟨hz, ?_, ?_, ?_, ?_, keeps⟩
    · funext p
      by_cases c : 0 ≤ p ∧ p < b.nd
      · rw [hz p c.1 c.2, (init_iter2_cells it2 b y axis fast_axis g0 p c.1 c.2).1]
      · exact NEXT2_iterate_indices_frame _ _ p (by rw [f1]; omega)
    · rw [NEXT2_run_pa it2 b y axis fast_axis g0 hf0 hf1, Finset.sum_eq_zero, add_zero]
      intro d hd
      rw [Finset.mem_filter, Finset.mem_range] at hd
      rw [hz (d : Int) (by omega) (by omega), zero_mul]
    · rw [NEXT2_run_py it2 b y axis fast_axis g0 hf0 hf1, Finset.sum_eq_zero, add_zero]
      intro d hd
      rw [Finset.mem_filter, Finset.mem_range] at hd
      rw [hz (d : Int) (by omega) (by omega), zero_mul]
    · rw [kits, f7, Int.toNat_of_nonneg (by omega)]
      ring

theorem wrap_around_after_nits_advances_witness :
    (NEXT^[(init_iter iter.zero view24 1).nits.toNat] (init_iter iter.zero view24 1)).pa
      = view24.data ∧
    (NEXT2^[(init_iter2 iter2.zero view234 view24 1 2).nits.toNat]
      (init_iter2 iter2.zero view234 view24 1 2)).pa = view234.data ∧
    (NEXT2^[(init_iter2 iter2.zero view234 view24 1 2).nits.toNat]
      (init_iter2 iter2.zero view234 view24 1 2)).py = view24.data ∧
    (init_iter iter.zero view24 1).nits = 2 ∧
    (NEXT^[2] (init_iter iter.zero view24 1)).pa = 5000 :=
  have h := wrap_around_after_nits_advances iter.zero iter2.zero view24 view234 view24 1 1 2
    (by decide) (by decide) (view24_lengths_pos 1) (by decide) (by decide) (by decide)
    (view234_lengths_pos 2)
  ⟨h.1.2.2.1, h.2.2.2.1, h.2.2.2.2.1, by decide, by decide⟩

/-! ## One NEXT: increment and carry -/

theorem NEXT_loop_carry_found (m : Nat) (it : iter) (hi : it.i = (m : Int) - 1) (d : Nat)
    (hd : d < m) (hc : it.indices (d : Int) < it.shape (d : Int) - 1)
    (hmax : ∀ e : Nat, d < e → e < m → ¬ it.indices (e : Int) < it.shape (e : Int) - 1) :
    (NEXT_loop m it).indices (d : Int) = it.indices (d : Int) + 1 ∧
    (∀ e : Nat, d < e → e < m → (NEXT_loop m it).indices (e : Int) = 0) ∧
    (∀ e : Nat, e < d ∨ m ≤ e → (NEXT_loop m it).indices (e : Int) = it.indices (e : Int)) ∧
    (NEXT_loop m it).pa
      = it.pa + it.astrides (d : Int)
        - ∑ e ∈ Finset.Ico (d + 1) m, it.indices (e : Int) * it.astrides (e : Int) := by
  induction m generalizing it with
  | zero => omega
  | succ m ih =>
    have hi' : it.i = (m : Int) := by push_cast at hi; omega
    have hpos' : (m : Int) > -1 := by omega
    simp only [NEXT_loop, hi', if_pos hpos']
    by_cases hdm : d = m
    · subst hdm
      rw [if_pos hc]
      refine ⟨by simp only [Function.update_same], fun e h1 h2 => by omega, fun e he => ?_, ?_⟩
      · have hx : (e : Int) ≠ (d : Int) := by omega
        simp only [Function.update_noteq hx]
      · simp
    · have hlt : d < m := by omega
      rw [if_neg (hmax m hlt (by omega))]
      have hne : ∀ e : Nat, e < m → (e : Int) ≠ (m : Int) := fun e he => by omega
      obtain ⟨g1, g2, g3, g4⟩ := ih
        { it with
            pa := it.pa - it.indices (m : Int) * it.astrides (m : Int)
            indices := Function.update it.indices (m : Int) 0
            i := (m : Int) - 1 } rfl hlt
        (by simp only; rw [Function.update_noteq (hne d hlt)]; exact hc)
        (fun e h1 h2 => by
          simp only
          rw [Function.update_noteq (hne e h2)]
          exact hmax e h1 (by omega))
      simp only at g1 g2 g3 g4
      refine ⟨?_, fun e h1 h2 => ?_, fun e he => ?_, ?_⟩
      · rw [g1, Function.update_noteq (hne d hlt)]
      · by_cases hem : e = m
        · subst hem
          rw [g3 e (Or.inr le_rfl), Function.update_same]
        · exact g2 e h1 (by omega)
      · rw [g3 e (by omega), Function.update_noteq (by omega)]
      · rw [g4, Finset.sum_Ico_succ_top (by omega)]
        have hs : ∑ e ∈ Finset.Ico (d + 1) m,
            Function.update it.indices (m : Int) 0 (e : Int) * it.astrides (e : Int)
            = ∑ e ∈ Finset.Ico (d + 1) m, it.indices (e : Int) * it.astrides (e : Int) := by
          refine Finset.sum_congr rfl (fun e he => ?_)
          rw [Finset.mem_Ico] at he
          rw [Function.update_noteq (hne e he.2)]
        rw [hs]
        ring

theorem NEXT_loop_carry_none (m : Nat) (it : iter) (hi : it.i = (m : Int) - 1)
    (hmax : ∀ e : Nat, e < m → ¬ it.indices (e : Int) < it.shape (e : Int) - 1) :
    (∀ e : Nat, e < m → (NEXT_loop m it).indices (e : Int) = 0) ∧
    (∀ e : Nat, m ≤ e → (NEXT_loop m it).indices (e : Int) = it.indices (e : Int)) ∧
    (NEXT_loop m it).pa
      = it.pa - ∑ e ∈ Finset.range m, it.indices (e : Int) * it.astrides (e : Int) := by
  induction m generalizing it with
  | zero => simp [NEXT_loop]
  | succ m ih =>
    have hi' : it.i = (m : Int) := by push_cast at hi; omega
    have hpos' : (m : Int) > -1 := by omega
    simp only [NEXT_loop, hi', if_pos hpos']
    rw [if_neg (hmax m (by omega))]
    have hne : ∀ e : Nat, e < m → (e : Int) ≠ (m : Int) := fun e he => by omega
    obtain ⟨g1, g2, g3⟩ := ih
      { it with
          pa := it.pa - it.indices (m : Int) * it.astrides (m : Int)
          indices := Function.update it.indices (m : Int) 0
          i := (m : Int) - 1 } rfl
      (fun e he => by
        simp only
        rw [Function.update_noteq (hne e he)]
        exact hmax e (by omega))
    simp only at g1 g2 g3
    refine ⟨fun e he => ?_, fun e he => ?_, ?_⟩
    · by_cases hem : e = m
      · subst hem
        rw [g2 e le_rfl, Function.update_same]
      · exact g1 e (by omega)
    · rw [g2 e (by omega), Function.update_noteq (by omega)]
    · rw [g3, Finset.sum_range_succ]
      have hs : ∑ e ∈ Finset.range m,
          Function.update it.indices (m : Int) 0 (e : Int) * it.astrides (e : Int)
          = ∑ e ∈ Finset.range m, it.indices (e : Int) * it.astrides (e : Int) := by
        refine Finset.sum_congr rfl (fun e he => ?_)
        rw [Finset.mem_range] at he
        rw [Function.update_noteq (hne e he)]
      rw [hs]
      ring

/-- Claim C18: for every iter state with ndim_m2 + 1 outer positions
(reachable or not), if some outer position has indices[d] < shape[d] - 1 and d
is the largest such position, NEXT adds 1 to indices[d], zeroes the indices
after d, keeps those before d, and moves pa by astrides[d] less the sum over
e > d of indices[e] * astrides[e]; if there is no such position, NEXT zeroes
every outer index and moves pa back by the sum over all outer e of
indices[e] * astrides[e]. -/
theorem NEXT_increments_and_carries (it : iter) (hn : -1 ≤ it.ndim_m2) :
    (∀ d : Nat, (d : Int) ≤ it.ndim_m2 → it.indices (d : Int) < it.shape (d : Int) - 1 →
      (∀ e : Nat, d < e → (e : Int) ≤ it.ndim_m2 →
        ¬ it.indices (e : Int) < it.shape (e : Int) - 1) →
      (NEXT it).indices (d : Int) = it.indices (d : Int) + 1 ∧
      (∀ e : Nat, d < e → (e : Int) ≤ it.ndim_m2 → (NEXT it).indices (e : Int) = 0) ∧
      (∀ e : Nat, e < d → (NEXT it).indices (e : Int) = it.indices (e : Int)) ∧
      (NEXT it).pa
        = it.pa + it.astrides (d : Int)
          - ∑ e ∈ Finset.Ico (d + 1) (it.ndim_m2 + 1).toNat,
              it.indices (e : Int) * it.astrides (e : Int)) ∧
    ((∀ e : Nat, (e : Int) ≤ it.ndim_m2 → ¬ it.indices (e : Int) < it.shape (e : Int) - 1) →
      (∀ e : Nat, (e : Int) ≤ it.ndim_m2 → (NEXT it).indices (e : Int) = 0) ∧
      (NEXT it).pa
        = it.pa - ∑ e ∈ Finset.range (it.ndim_m2 + 1).toNat,
            it.indices (e : Int) * it.astrides (e : Int)) := by
  have hi : ({ it with i := it.ndim_m2 } : iter).i = (((it.ndim_m2 + 1).toNat : Nat) : Int) - 1 := by
    simp only
    omega
  constructor
  · intro d hd hc hmax
    obtain ⟨g1, g2, g3, g4⟩ := NEXT_loop_carry_found (it.ndim_m2 + 1).toNat
      { it with i := it.ndim_m2 } hi d (by omega) hc (fun e h1 h2 => hmax e h1 (by omega))
    exact ⟨g1, fun e h1 h2 => g2 e h1 (by omega), fun e he => g3 e (Or.inl he), g4⟩
  · intro hmax
    obtain ⟨g1, -, g3⟩ := NEXT_loop_carry_none (it.ndim_m2 + 1).toNat
      { it with i := it.ndim_m2 } hi (fun e he => hmax e (by omega))
    exact ⟨fun e he => g1 e (by omega), g3⟩

theorem NEXT_increments_and_carries_witness :
    (NEXT (init_iter iter.zero view234 1)).indices ((1 : Nat) : Int)
      = (init_iter iter.zero view234 1).indices ((1 : Nat) : Int) + 1 ∧
    (NEXT (init_iter iter.zero view234 1)).pa
      = (init_iter iter.zero view234 1).pa
        + (init_iter iter.zero view234 1).astrides ((1 : Nat) : Int)
        - ∑ e ∈ Finset.Ico (1 + 1) ((init_iter iter.zero view234 1).ndim_m2 + 1).toNat,
            (init_iter iter.zero view234 1).indices (e : Int)
              * (init_iter iter.zero view234 1).astrides (e : Int) ∧
    (NEXT (init_iter iter.zero view234 1)).pa = 1008 :=
  have h := (NEXT_increments_and_carries (init_iter iter.zero view234 1) (by decide)).1 1
    (by decide) (by decide) (fun e h1 h2 => by
      have e2 : (init_iter iter.zero view234 1).ndim_m2 = 1 := by decide
      rw [e2] at h2
      omega)
  ⟨h.1, h.2.2.2, by decide⟩

/-! ## The paired iterator with fast_axis = axis and the single iterator -/

/-- Claim C20: for every source, every target and every axis in [0, R), after
n NEXT2 on init_iter2 (source, target, axis, fast_axis = axis) and n NEXT on
init_iter (source, axis) the two states agree on pa, its, nits, length and
astride, and the indices of the paired iterator with position axis deleted
are the indices of the single iterator. -/
theorem paired_iterator_with_fast_axis_equal_axis_refines_single (it : iter) (it2 : iter2)
    (a y : PyArrayObject) (axis : Int) (h0 : 0 ≤ axis) (h1 : axis < a.nd) (n : Nat) :
    (NEXT2^[n] (init_iter2 it2 a y axis axis)).pa = (NEXT^[n] (init_iter it a axis)).pa ∧
    (NEXT2^[n] (init_iter2 it2 a y axis axis)).its = (NEXT^[n] (init_iter it a axis)).its ∧
    (NEXT2^[n] (init_iter2 it2 a y axis axis)).nits = (NEXT^[n] (init_iter it a axis)).nits ∧
    (NEXT2^[n] (init_iter2 it2 a y axis axis)).length
      = (NEXT^[n] (init_iter it a axis)).length ∧
    (NEXT2^[n] (init_iter2 it2 a y axis axis)).astride
      = (NEXT^[n] (init_iter it a axis)).astride ∧
    ∀ p : Int, 0 ≤ p → p < a.nd - 1 →
      (NEXT2^[n] (init_iter2 it2 a y axis axis)).indices (if p < axis then p else p + 1)
        = (NEXT^[n] (init_iter it a axis)).indices p := by
  obtain ⟨-, -, -, -, k5, k6, k7, k8, -⟩ := NEXT_iterate_inv (init_iter it a axis) n
  obtain ⟨⟨-, -, -, -, -, -, -, -, -, j10, j11, j12, -⟩, j14⟩ :=
    NEXT2_iterate_inv (init_iter2 it2 a y axis axis) n
  obtain ⟨-, -, -, f4, f5, -, f7, -⟩ := init_iter2_frame it2 a y axis axis
  obtain ⟨e1, e2⟩ := init_iter_axis it a axis h0 h1
  obtain ⟨-, spa, -⟩ := sim_run it it2 a y axis axis h0 h0 h1 n
  refine ⟨spa.symm, ?_, ?_, ?_, ?_, fun p hp0 hp =>
    NEXT2_run_indices it it2 a y axis axis h0 h0 h1 n p hp0 hp⟩
  · rw [j14, k5, f7, (init_iter_frame it a axis).2.1]
  · rw [j10, k6, init_iter2_nits_eq it it2 a y axis axis]
  · rw [j11, k7, f4, e2]
  · rw [j12, k8, f5, e1]

theorem paired_iterator_with_fast_axis_equal_axis_refines_single_witness :
    (NEXT2^[5] (init_iter2 iter2.zero view234 view24 1 1)).pa
      = (NEXT^[5] (init_iter iter.zero view234 1)).pa ∧
    (NEXT2^[5] (init_iter2 iter2.zero view234 view24 1 1)).nits
      = (NEXT^[5] (init_iter iter.zero view234 1)).nits ∧
    (NEXT2^[5] (init_iter2 iter2.zero view234 view24 1 1)).indices
        (if (1 : Int) < 1 then 1 else 1 + 1)
      = (NEXT^[5] (init_iter iter.zero view234 1)).indices 1 :=
  have h := paired_iterator_with_fast_axis_equal_axis_refines_single iter.zero iter2.zero
    view234 view24 1 (by decide) (by decide) 5
  ⟨h.1, h.2.2.1, h.2.2.2.2.2 1 (by decide) (by decide)⟩

/-! ## Element addresses of the paired iterator -/

theorem NEXT2_run_pa_full (it : iter2) (a y : PyArrayObject) (axis fast_axis : Int)
    (h0 : 0 ≤ axis) (n : Nat) :
    (NEXT2^[n] (init_iter2 it a y axis fast_axis)).pa
      = a.data + ∑ d ∈ Finset.range a.nd.toNat,
          (NEXT2^[n] (init_iter2 it a y axis fast_axis)).indices (d : Int)
            * a.strides (d : Int) := by
  obtain ⟨⟨k1, -, -, k4, -⟩, -⟩ := NEXT2_iterate_inv (init_iter2 it a y axis fast_axis) n
  obtain ⟨f1, -, -, -, -, -, -, f8, -⟩ := init_iter2_frame it a y axis fast_axis
  have hz : ∀ d ∈ Finset.range a.nd.toNat,
      (init_iter2 it a y axis fast_axis).indices (d : Int)
        * (init_iter2 it a y axis fast_axis).astrides (d : Int) = 0 := by
    intro d hd
    have hd2 : d < a.nd.toNat := Finset.mem_range.mp hd
    rw [(init_iter2_cells it a y axis fast_axis h0 (d : Int) (by omega) (by omega)).1]
    ring
  rw [f1] at k1
  simp only [iter2.slack_a, k4, Finset.sum_eq_zero hz, f8] at k1
  have hs : ∑ d ∈ Finset.range a.nd.toNat,
      (NEXT2^[n] (init_iter2 it a y axis fast_axis)).indices (d : Int)
        * (init_iter2 it a y axis fast_axis).astrides (d : Int)
      = ∑ d ∈ Finset.range a.nd.toNat,
          (NEXT2^[n] (init_iter2 it a y axis fast_axis)).indices (d : Int)
            * a.strides (d : Int) := by
    refine Finset.sum_congr rfl (fun d hd => ?_)
    have hd2 : d < a.nd.toNat := Finset.mem_range.mp hd
    rw [(init_iter2_cells it a y axis fast_axis h0 (d : Int) (by omega) (by omega)).2.1]
  rw [← hs]
  linarith

theorem NEXT2_run_py_mask (it : iter2) (a y : PyArrayObject) (axis fast_axis : Int)
    (h0 : 0 ≤ axis) (n : Nat) :
    (NEXT2^[n] (init_iter2 it a y axis fast_axis)).py
      = y.data + ∑ d ∈ Finset.range a.nd.toNat,
          (NEXT2^[n] (init_iter2 it a y axis fast_axis)).indices (d : Int)
            * maskAt axis (fun d => if d < axis then y.strides d else y.strides (d - 1))
                (d : Int) := by
  obtain ⟨⟨-, k2, -, -, k5, -, -, k8, -⟩, -⟩ :=
    NEXT2_iterate_inv (init_iter2 it a y axis fast_axis) n
  obtain ⟨f1, f2, -, -, -, -, -, -, f9, -⟩ := init_iter2_frame it a y axis fast_axis
  have hz : ∀ d ∈ Finset.range a.nd.toNat,
      (init_iter2 it a y axis fast_axis).indices (d : Int)
        * maskAt axis (init_iter2 it a y axis fast_axis).ystrides (d : Int) = 0 := by
    intro d hd
    have hd2 : d < a.nd.toNat := Finset.mem_range.mp hd
    rw [(init_iter2_cells it a y axis fast_axis h0 (d : Int) (by omega) (by omega)).1]
    ring
  rw [f1] at k2
  simp only [iter2.slack_y, k5, k8, f2, Finset.sum_eq_zero hz, f9] at k2
  have hs : ∑ d ∈ Finset.range a.nd.toNat,
      (NEXT2^[n] (init_iter2 it a y axis fast_axis)).indices (d : Int)
        * maskAt axis (init_iter2 it a y axis fast_axis).ystrides (d : Int)
      = ∑ d ∈ Finset.range a.nd.toNat,
          (NEXT2^[n] (init_iter2 it a y axis fast_axis)).indices (d : Int)
            * maskAt axis (fun d => if d < axis then y.strides d else y.strides (d - 1))
                (d : Int) := by
    refine Finset.sum_congr rfl (fun d hd => ?_)
    have hd2 : d < a.nd.toNat := Finset.mem_range.mp hd
    congr 1
    unfold maskAt
    by_cases c : (d : Int) = axis
    · rw [if_pos c, if_pos c]
    · rw [if_neg c, if_neg c,
        (init_iter2_cells it a y axis fast_axis h0 (d : Int) (by omega) (by omega)).2.2.2,
        if_neg c]
  rw [← hs]
  linarith

theorem sum_filter_ne_mask (f g : Int → Int) (axis : Int) (n : Nat) :
    ∑ d ∈ (Finset.range n).filter (fun d : Nat => (d : Int) ≠ axis), f (d : Int) * g (d : Int)
      = ∑ d ∈ Finset.range n, f (d : Int) * maskAt axis g (d : Int) := by
  rw [Finset.sum_filter]
  refine Finset.sum_congr rfl (fun d _ => ?_)
  unfold maskAt
  by_cases c : (d : Int) = axis
  · rw [if_neg (not_not.mpr c), if_pos c]
    ring
  · rw [if_pos c, if_neg c]

/-- Claim C17: for axis and fast_axis in [0, R) with fast_axis different from
axis, every k and every i, with c the indices after k NEXT2 and c[fast_axis]
set to i: pa + i * astride is the source base plus the sum over all d of
c[d] * the source stride at d, and py + i * ystride is the target base plus
the sum over d other than axis of c[d] * the target stride at d (d < axis) or
d - 1 (d > axis), the target element at c with coordinate axis dropped. -/
theorem paired_iterator_addresses_matching_elements (it : iter2) (a y : PyArrayObject)
    (axis fast_axis : Int) (h0 : 0 ≤ axis) (hf0 : 0 ≤ fast_axis) (hf1 : fast_axis < a.nd)
    (hne : fast_axis ≠ axis) (k : Nat) (i : Int) :
    (NEXT2^[k] (init_iter2 it a y axis fast_axis)).pa
        + i * (NEXT2^[k] (init_iter2 it a y axis fast_axis)).astride
      = a.data + ∑ d ∈ Finset.range a.nd.toNat,
          Function.update (NEXT2^[k] (init_iter2 it a y axis fast_axis)).indices fast_axis i
              (d : Int) * a.strides (d : Int) ∧
    (NEXT2^[k] (init_iter2 it a y axis fast_axis)).py
        + i * (NEXT2^[k] (init_iter2 it a y axis fast_axis)).ystride
      = y.data + ∑ d ∈ (Finset.range a.nd.toNat).filter (fun d : Nat => (d : Int) ≠ axis),
          Function.update (NEXT2^[k] (init_iter2 it a y axis fast_axis)).indices fast_axis i
              (d : Int)
            * (if (d : Int) < axis then y.strides (d : Int) else y.strides ((d : Int) - 1)) := by
  obtain ⟨⟨-, -, -, -, -, -, -, -, -, -, -, k12, k13⟩, -⟩ :=
    NEXT2_iterate_inv (init_iter2 it a y axis fast_axis) k
  obtain ⟨-, -, -, -, f5, f6, -⟩ := init_iter2_frame it a y axis fast_axis
  have hz := (NEXT2_run_frame it a y axis fast_axis h0 hf0 hf1 k).1
  have hc : 0 ≤ fast_axis ∧ fast_axis < ((a.nd.toNat : Nat) : Int) := ⟨hf0, by omega⟩
  constructor
  · rw [sum_update_mul, if_pos hc, hz, k12, f5,
      NEXT2_run_pa_full it a y axis fast_axis h0 k]
    ring
  · have e := sum_filter_ne_mask
      (Function.update (NEXT2^[k] (init_iter2 it a y axis fast_axis)).indices fast_axis i)
      (fun d => if d < axis then y.strides d else y.strides (d - 1)) axis a.nd.toNat
    beta_reduce at e
    have hm : maskAt axis (fun d => if d < axis then y.strides d else y.strides (d - 1))
        fast_axis = (if fast_axis < axis then y.strides fast_axis
          else y.strides (fast_axis - 1)) := by
      unfold maskAt
      rw [if_neg hne]
    rw [e, sum_update_mul, if_pos hc, hz, k13, f6, hm,
      NEXT2_run_py_mask it a y axis fast_axis h0 k]
    ring

theorem paired_iterator_addresses_matching_elements_witness :
    (NEXT2^[4] (init_iter2 iter2.zero view234 view24 1 2)).pa
        + 3 * (NEXT2^[4] (init_iter2 iter2.zero view234 view24 1 2)).astride
      = view234.data + ∑ d ∈ Finset.range view234.nd.toNat,
          Function.update (NEXT2^[4] (init_iter2 iter2.zero view234 view24 1 2)).indices 2 3
              (d : Int) * view234.strides (d : Int) ∧
    (NEXT2^[4] (init_iter2 iter2.zero view234 view24 1 2)).py
        + 3 * (NEXT2^[4] (init_iter2 iter2.zero view234 view24 1 2)).ystride
      = view24.data
        + ∑ d ∈ (Finset.range view234.nd.toNat).filter (fun d : Nat => (d : Int) ≠ 1),
          Function.update (NEXT2^[4] (init_iter2 iter2.zero view234 view24 1 2)).indices 2 3
              (d : Int)
            * (if (d : Int) < 1 then view24.strides (d : Int)
                else view24.strides ((d : Int) - 1)) :=
  paired_iterator_addresses_matching_elements iter2.zero view234 view24 1 2 (by decide)
    (by decide) (by decide) (by decide) 4 3

/-! ## Element addresses of the single iterator -/

theorem sum_filter_ne_eq_sum_unskip (f : Int → Int) (axis : Int) (h0 : 0 ≤ axis) (n : Nat) :
    ∑ k ∈ (Finset.range n).filter (fun k : Nat => (k : Int) ≠ axis), f (k : Int)
      = ∑ p ∈ Finset.range (if axis < (n : Int) then n - 1 else n),
          f (unskip axis (p : Int)) := by
  induction n with
  | zero =>
    have : ¬ axis < ((0 : Nat) : Int) := by push_cast; omega
    simp [this]
  | succ n ih =>
    rw [Finset.range_succ, Finset.filter_insert]
    by_cases h : (n : Int) = axis
    · have c2 : ¬ axis < (n : Int) := by omega
      have c3 : axis < ((n + 1 : Nat) : Int) := by push_cast; omega
      rw [if_neg (by simpa using h), ih, if_neg c2, if_pos c3]
      simp
    · rw [if_pos (by simpa using h), Finset.sum_insert (by simp), ih]
      by_cases c2 : axis < (n : Int)
      · have c3 : axis < ((n + 1 : Nat) : Int) := by push_cast; omega
        obtain ⟨m, rfl⟩ : ∃ m, n = m + 1 := ⟨n - 1, by omega⟩
        rw [if_pos c2, if_pos c3]
        simp only [Nat.add_sub_cancel]
        rw [Finset.sum_range_succ, add_comm]
        congr 1
        unfold unskip
        rw [if_neg (by push_cast at c2; omega)]
        push_cast
        rfl
      · have c3 : ¬ axis < ((n + 1 : Nat) : Int) := by push_cast; omega
        rw [if_neg c2, if_neg c3, Finset.sum_range_succ, add_comm]
        congr 1
        unfold unskip
        rw [if_pos (by omega)]

theorem sum_range_split_at (f : Int → Int) (axis : Int) (h0 : 0 ≤ axis) (n : Nat)
    (h1 : axis < (n : Int)) :
    ∑ k ∈ Finset.range n, f (k : Int)
      = ∑ k ∈ (Finset.range n).filter (fun k : Nat => (k : Int) ≠ axis), f (k : Int)
        + f axis := by
  rw [← Finset.sum_filter_add_sum_filter_not (Finset.range n) (fun k : Nat => (k : Int) ≠ axis)]
  congr 1
  have he : (Finset.range n).filter (fun k : Nat => ¬ (k : Int) ≠ axis) = {axis.toNat} := by
    ext k
    simp only [Finset.mem_filter, Finset.mem_range, Finset.mem_singleton, not_not]
    omega
  rw [he, Finset.sum_singleton, Int.toNat_of_nonneg h0]

theorem insertAt_unskip (axis : Int) (outer : Int → Int) (j p : Int) :
    insertAt axis outer j (unskip axis p) = outer p := by
  unfold insertAt unskip
  split_ifs <;> first | rfl | omega | (congr 1; omega)

theorem insertAt_axis (axis : Int) (outer : Int → Int) (j : Int) :
    insertAt axis outer j axis = j := by
  unfold insertAt
  rw [if_neg (lt_irrefl axis), if_pos rfl]

theorem sum_insertAt (outer s : Int → Int) (axis j : Int) (h0 : 0 ≤ axis) (n : Nat)
    (h1 : axis < (n : Int)) :
    ∑ i ∈ Finset.range n, insertAt axis outer j (i : Int) * s (i : Int)
      = ∑ p ∈ Finset.range (n - 1), outer (p : Int) * s (unskip axis (p : Int))
        + j * s axis := by
  have e1 := sum_range_split_at (fun i => insertAt axis outer j i * s i) axis h0 n h1
  have e2 := sum_filter_ne_eq_sum_unskip (fun i => insertAt axis outer j i * s i) axis h0 n
  beta_reduce at e1 e2
  rw [e1, e2, if_pos h1, insertAt_axis]
  congr 1
  refine Finset.sum_congr rfl (fun p _ => ?_)
  rw [insertAt_unskip]

theorem NEXT_run_address (it : iter) (a : PyArrayObject) (axis : Int)
    (h0 : 0 ≤ axis) (h1 : axis < a.nd) (k : Nat) (j : Int) :
    (NEXT^[k] (init_iter it a axis)).pa + j * (NEXT^[k] (init_iter it a axis)).astride
      = a.data + ∑ i ∈ Finset.range a.nd.toNat,
          insertAt axis (NEXT^[k] (init_iter it a axis)).indices j (i : Int)
            * a.strides (i : Int) := by
  obtain ⟨-, k2, -, -, -, -, -, k8, -⟩ := NEXT_iterate_inv (init_iter it a axis) k
  rw [sum_insertAt _ _ axis j h0 a.nd.toNat (by omega), NEXT_iterate_pa it a axis h0 h1 k, k8,
    (init_iter_axis it a axis h0 h1).1, k2]
  have e : a.nd.toNat - 1 = (a.nd - 1).toNat := by omega
  rw [e]
  have hs : ∑ d ∈ Finset.range (a.nd - 1).toNat,
      (NEXT^[k] (init_iter it a axis)).indices (d : Int) * (init_iter it a axis).astrides (d : Int)
      = ∑ d ∈ Finset.range (a.nd - 1).toNat,
          (NEXT^[k] (init_iter it a axis)).indices (d : Int)
            * a.strides (unskip axis (d : Int)) := by
    refine Finset.sum_congr rfl (fun d hd => ?_)
    have hd2 : d < (a.nd - 1).toNat := Finset.mem_range.mp hd
    rw [(init_iter_outer it a axis h0 h1 (d : Int) (by omega) (by omega)).2.1]
  rw [hs]
  ring

theorem NEXT_run_coordinate_in_range (it : iter) (a : PyArrayObject) (axis : Int)
    (h0 : 0 ≤ axis) (h1 : axis < a.nd)
    (hlen : ∀ j : Int, 0 ≤ j → j < a.nd → j ≠ axis → 1 ≤ a.dimensions j) (k : Nat) (j : Int)
    (hj0 : 0 ≤ j) (hj : j < a.dimensions axis) (i : Int) (hi0 : 0 ≤ i) (hi : i < a.nd) :
    0 ≤ insertAt axis (NEXT^[k] (init_iter it a axis)).indices j i ∧
    insertAt axis (NEXT^[k] (init_iter it a axis)).indices j i < a.dimensions i := by
  have hb := (NEXT_run_rank it a axis h0 h1 hlen k).1
  unfold insertAt
  by_cases c1 : i < axis
  · rw [if_pos c1]
    have := hb i.toNat (by omega)
    rw [Int.toNat_of_nonneg hi0] at this
    unfold outerShape at this
    rwa [if_pos c1] at this
  · rw [if_neg c1]
    by_cases c2 : i = axis
    · rw [if_pos c2, c2]
      exact ⟨hj0, hj⟩
    · rw [if_neg c2]
      have := hb (i - 1).toNat (by omega)
      rw [Int.toNat_of_nonneg (by omega)] at this
      unfold outerShape at this
      rw [if_neg (by omega)] at this
      have e : i - 1 + 1 = i := by ring
      rwa [e] at this

/-- Claim C16: for a view with every length at least 1 and an axis in [0, R):
after k < nits NEXT and for j in [0, length), pa + j * astride is the base plus
the sum over all R positions i of c[i] * the stride at i, where c is the
outer coordinate of k with j inserted at position axis; c is a coordinate of
the view, different pairs (k, j) give different coordinates, and every
coordinate of the view comes from some pair (k, j). -/
theorem axis_iterator_reaches_every_element_once (it : iter) (a : PyArrayObject) (axis : Int)
    (h0 : 0 ≤ axis) (h1 : axis < a.nd)
    (hlen : ∀ j : Int, 0 ≤ j → j < a.nd → 1 ≤ a.dimensions j) :
    (∀ k : Nat, (k : Int) < (init_iter it a axis).nits →
      ∀ j : Int, 0 ≤ j → j < (init_iter it a axis).length →
        (NEXT^[k] (init_iter it a axis)).pa + j * (NEXT^[k] (init_iter it a axis)).astride
          = a.data + ∑ i ∈ Finset.range a.nd.toNat,
              insertAt axis (NEXT^[k] (init_iter it a axis)).indices j (i : Int)
                * a.strides (i : Int) ∧
        ∀ i : Int, 0 ≤ i → i < a.nd →
          0 ≤ insertAt axis (NEXT^[k] (init_iter it a axis)).indices j i ∧
          insertAt axis (NEXT^[k] (init_iter it a axis)).indices j i < a.dimensions i) ∧
    (∀ k k' : Nat, (k : Int) < (init_iter it a axis).nits →
      (k' : Int) < (init_iter it a axis).nits → ∀ j j' : Int,
        (∀ i : Int, 0 ≤ i → i < a.nd →
          insertAt axis (NEXT^[k] (init_iter it a axis)).indices j i
            = insertAt axis (NEXT^[k'] (init_iter it a axis)).indices j' i) →
        k = k' ∧ j = j') ∧
    (∀ x : Int → Int, (∀ i : Int, 0 ≤ i → i < a.nd → 0 ≤ x i ∧ x i < a.dimensions i) →
      ∃ k : Nat, (k : Int) < (init_iter it a axis).nits ∧
        ∃ j : Int, 0 ≤ j ∧ j < (init_iter it a axis).length ∧
          ∀ i : Int, 0 ≤ i → i < a.nd →
            insertAt axis (NEXT^[k] (init_iter it a axis)).indices j i = x i) := by
  have hlen' : ∀ j : Int, 0 ≤ j → j < a.nd → j ≠ axis → 1 ≤ a.dimensions j :=
    fun j hj0 hj _ => hlen j hj0 hj
  have hL : (init_iter it a axis).length = a.dimensions axis := (init_iter_axis it a axis h0 h1).2
  rw [hL]
  have hu : ∀ p : Int, 0 ≤ p → p < a.nd - 1 →
      0 ≤ unskip axis p ∧ unskip axis p < a.nd := by
    intro p hp0 hp
    unfold unskip
    split_ifs <;> omega
  refine ⟨fun k _ j hj0 hj => ⟨NEXT_run_address it a axis h0 h1 k j, fun i hi0 hi =>
    NEXT_run_coordinate_in_range it a axis h0 h1 hlen' k j hj0 hj i hi0 hi⟩, ?_, ?_⟩
  · intro k k' hk hk' j j' hall
    constructor
    · by_contra hne
      obtain ⟨p, hp0, hp, hd⟩ := NEXT_run_distinct it a axis h0 h1 hlen' k k' hk hk' hne
      have := hall (unskip axis p) (hu p hp0 hp).1 (hu p hp0 hp).2
      rw [insertAt_unskip, insertAt_unskip] at this
      exact hd this
    · have := hall axis h0 h1
      rwa [insertAt_axis, insertAt_axis] at this
  · intro x hx
    obtain ⟨k, hk, hkc⟩ := NEXT_run_cover it a axis h0 h1 hlen' (fun p => x (unskip axis p))
      (fun p hp0 hp => hx (unskip axis p) (hu p hp0 hp).1 (hu p hp0 hp).2)
    refine ⟨k, hk, x axis, (hx axis h0 h1).1, (hx axis h0 h1).2, fun i hi0 hi => ?_⟩
    unfold insertAt
    by_cases c1 : i < axis
    · rw [if_pos c1, hkc i hi0 (by omega)]
      unfold unskip
      rw [if_pos c1]
    · rw [if_neg c1]
      by_cases c2 : i = axis
      · rw [if_pos c2, c2]
      · rw [if_neg c2, hkc (i - 1) (by omega) (by omega)]
        unfold unskip
        rw [if_neg (by omega)]
        congr 1
        ring

theorem view234_all_lengths_pos :
    ∀ j : Int, 0 ≤ j → j < view234.nd → 1 ≤ view234.dimensions j := by
  intro j hj0 hj
  have e : view234.nd = 3 := by decide
  rw [e] at hj
  interval_cases j <;> decide

theorem axis_iterator_reaches_every_element_once_witness :
    (NEXT^[5] (init_iter iter.zero view234 1)).pa
        + 2 * (NEXT^[5] (init_iter iter.zero view234 1)).astride
      = view234.data + ∑ i ∈ Finset.range view234.nd.toNat,
          insertAt 1 (NEXT^[5] (init_iter iter.zero view234 1)).indices 2 (i : Int)
            * view234.strides (i : Int) :=
  ((axis_iterator_reaches_every_element_once iter.zero view234 1 (by decide) (by decide)
    view234_all_lengths_pos).1 5 (by decide) 2 (by decide) (by decide)).1

end Femto
